import Mathlib

set_option maxHeartbeats 1600000
set_option maxRecDepth 200000

/-! Shallow embedding of advanced_pathfinding_visualizer.py -/

/-- A grid cell position: (row, col). -/
abbrev Pos := Nat × Nat

/-- Colors are RGB triples, exactly as in the source. -/
abbrev Color := Nat × Nat × Nat

def RED : Color := (255, 0, 0)
def GREEN : Color := (0, 255, 0)
def YELLOW : Color := (255, 255, 0)
def WHITE : Color := (255, 255, 255)
def BLACK : Color := (0, 0, 0)
def PURPLE : Color := (138, 43, 226)
def ORANGE : Color := (255, 165, 0)

/-- Pointwise update of a color map (node.color = v). -/
def setc (colors : Pos → Color) (p : Pos) (v : Color) : Pos → Color :=
  fun q => if q = p then v else colors q

/-- Node.is_barrier: color == BLACK. -/
def is_barrier (colors : Pos → Color) (p : Pos) : Bool := decide (colors p = BLACK)

/-- Node.update_neighbors: neighbors in the fixed order down, up, right, left,
skipping out-of-bounds rows/cols and barrier cells. -/
def update_neighbors (rows : Nat) (colors : Pos → Color) (p : Pos) : List Pos :=
  (if p.1 < rows - 1 ∧ is_barrier colors (p.1 + 1, p.2) = false then [(p.1 + 1, p.2)] else []) ++
  (if 0 < p.1 ∧ is_barrier colors (p.1 - 1, p.2) = false then [(p.1 - 1, p.2)] else []) ++
  (if p.2 < rows - 1 ∧ is_barrier colors (p.1, p.2 + 1) = false then [(p.1, p.2 + 1)] else []) ++
  (if 0 < p.2 ∧ is_barrier colors (p.1, p.2 - 1) = false then [(p.1, p.2 - 1)] else [])

/-- The heuristic the source names h: Manhattan distance. -/
def manh (p1 p2 : Pos) : Nat :=
  (if p1.1 ≤ p2.1 then p2.1 - p1.1 else p1.1 - p2.1) +
  (if p1.2 ≤ p2.2 then p2.2 - p1.2 else p1.2 - p2.2)

/-! CPython heapq, as wrapped by queue.PriorityQueue. -/

/-- heapq._siftdown: move the new item from pos up toward startpos. The while
loop is driven by a fuel that bounds the remaining iterations; the parent index
is strictly below pos, so fuel = pos always suffices (see siftdownAux_fuel). -/
def siftdownFuel (lt : α → α → Bool) (newitem : α) (startpos : Nat) :
    Nat → List α → Nat → List α
  | 0, l, pos => l.set pos newitem
  | fuel + 1, l, pos =>
    if startpos < pos then
      let parentpos := (pos - 1) / 2
      match l[parentpos]? with
      | some parent =>
        if lt newitem parent then
          siftdownFuel lt newitem startpos fuel (l.set pos parent) parentpos
        else l.set pos newitem
      | none => l.set pos newitem
    else l.set pos newitem

def siftdownAux (lt : α → α → Bool) (newitem : α) (startpos : Nat)
    (l : List α) (pos : Nat) : List α :=
  siftdownFuel lt newitem startpos pos l pos

/-- heapq._siftup: move the hole down to a leaf, then sift the item up. The
child index strictly grows and is bounded by the length, so fuel = l.length
always suffices. -/
def siftupFuel (lt : α → α → Bool) (newitem : α) (startpos : Nat) :
    Nat → List α → Nat → List α
  | 0, l, pos => siftdownAux lt newitem startpos (l.set pos newitem) pos
  | fuel + 1, l, pos =>
    if 2 * pos + 1 < l.length then
      let childpos := 2 * pos + 1
      let rightpos := childpos + 1
      let childpos :=
        if rightpos < l.length ∧
            (lt (l.getD childpos newitem) (l.getD rightpos newitem)) = false then rightpos
        else childpos
      siftupFuel lt newitem startpos fuel (l.set pos (l.getD childpos newitem)) childpos
    else siftdownAux lt newitem startpos (l.set pos newitem) pos

def siftupAux (lt : α → α → Bool) (newitem : α) (startpos : Nat)
    (l : List α) (pos : Nat) : List α :=
  siftupFuel lt newitem startpos l.length l pos

/-- heapq.heappush. -/
def heappush (lt : α → α → Bool) (l : List α) (x : α) : List α :=
  siftdownAux lt x 0 (l ++ [x]) l.length

/-- heapq.heappop: the popped item and the remaining heap. -/
def heappop (lt : α → α → Bool) (l : List α) : Option (α × List α) :=
  match l.getLast? with
  | none => none
  | some lastelt =>
    match l.dropLast with
    | [] => some (lastelt, [])
    | r0 :: rtl =>
      some (r0, siftupAux lt lastelt 0 ((r0 :: rtl).set 0 lastelt) 0)

/-- Python tuple comparison on a_star's (f_score, count, Node) entries;
Node.__lt__ always returns False so the node component never decides. -/
def ltA (a b : Nat × Nat × Pos) : Bool :=
  decide (a.1 < b.1 ∨ (a.1 = b.1 ∧ a.2.1 < b.2.1))

/-- Python tuple comparison on dijkstra's (cost, Node) entries;
Node.__lt__ always returns False so cost ties compare as not-less. -/
def ltD (a b : Nat × Pos) : Bool := decide (a.1 < b.1)

/-- temp < score[x] where score values are float('inf') (none) or naturals. -/
def ltOpt (a : Nat) : Option Nat → Bool
  | none => true
  | some b => decide (a < b)

/-! Events and run-control flags. -/

inductive Ev where
  | quit
  | keyC
  | keyEsc
  | keyP
  | other
deriving DecidableEq, Repr

structure Flags where
  stop : Bool
  pause : Bool
  clear : Bool
deriving DecidableEq, Repr

/-- _process_events_during_algorithm: one poll over a drained event batch,
with the source's early returns on QUIT, C, ESCAPE and P. -/
def process_events : List Ev → Flags → Flags
  | [], fl => fl
  | Ev.quit :: _, fl => { fl with stop := true, clear := false }
  | Ev.keyC :: _, fl => { fl with stop := true, clear := true }
  | Ev.keyEsc :: _, fl => { fl with stop := true, clear := false }
  | Ev.keyP :: _, fl => { fl with pause := !fl.pause }
  | Ev.other :: rest, fl => process_events rest fl

/-! reconstruct_path -/

/-- reconstruct_path: walk came_from from current, marking each predecessor
as Path and collecting it; returns updated colors and the node list
(goal's predecessor first, start last). fuel bounds the while loop. -/
def reconstruct_path (fuel : Nat) (came_from : Pos → Option Pos) (current : Pos)
    (colors : Pos → Color) : (Pos → Color) × List Pos :=
  match fuel with
  | 0 => (colors, [])
  | fuel + 1 =>
    match came_from current with
    | none => (colors, [])
    | some prev =>
      let res := reconstruct_path fuel came_from prev (setc colors prev YELLOW)
      (res.1, prev :: res.2)

/-! electric_pulse_path -/

/-- One frame of the pulse loop at index i; flick i models the 10% flicker
draw of random.random(). -/
def pulse_frame (path : List Pos) (flick : Nat → Bool) (original : Pos → Color)
    (colors : Pos → Color) (i : Nat) : Pos → Color :=
  let colors := if 2 ≤ i then setc colors (path.getD (i - 2) (0, 0)) (original (path.getD (i - 2) (0, 0))) else colors
  let colors := if 1 ≤ i then setc colors (path.getD (i - 1) (0, 0)) (original (path.getD (i - 1) (0, 0))) else colors
  let colors := if flick i then setc colors (path.getD i (0, 0)) (255, 255, 200) else colors
  if i + 1 < path.length then setc colors (path.getD (i + 1) (0, 0)) (150, 200, 255) else colors

/-- One pulse pass: the frame loop over the path followed by the
reset-for-next-pass restore loop. -/
def pulse_pass (path : List Pos) (flick : Nat → Bool) (original : Pos → Color)
    (colors : Pos → Color) : Pos → Color :=
  let colors := (List.range path.length).foldl (pulse_frame path flick original) colors
  path.foldl (fun c n => setc c n (original n)) colors

def pulse_passes (path : List Pos) (flick : Nat → Bool) (original : Pos → Color) :
    Nat → (Pos → Color) → (Pos → Color)
  | 0, colors => colors
  | n + 1, colors => pulse_passes path flick original n (pulse_pass path flick original colors)

/-- electric_pulse_path (call sites use pulses = 1): travelling pulse over
the reversed path, then restore every path node to Path yellow. -/
def electric_pulse_path (flick : Nat → Bool) (pulses : Nat) (path_nodes : List Pos)
    (colors : Pos → Color) : Pos → Color :=
  if path_nodes.isEmpty then colors
  else
    let path := path_nodes.reverse
    let original := colors
    let colors := pulse_passes path flick original pulses colors
    path.foldl (fun c n => setc c n YELLOW) colors

/-! a_star -/

structure AState where
  heap : List (Nat × Nat × Pos)
  count : Nat
  came_from : Pos → Option Pos
  g_score : Pos → Option Nat
  f_score : Pos → Option Nat
  open_set_hash : Pos → Bool
  colors : Pos → Color
  flags : Flags
  pc : Nat
  log : List Pos

/-- The neighbor relaxation loop of a_star (with the in-loop stop check;
the Bool result records an abort). -/
def a_star_relax (heur : Pos → Pos → Nat) (endP current : Pos) (st : AState) : List Pos → Bool × AState
  | [] => (false, st)
  | nb :: rest =>
    if st.flags.stop then (true, st)
    else
      match st.g_score current with
      | none => a_star_relax heur endP current st rest
      | some gc =>
        let temp := gc + 1
        if ltOpt temp (st.g_score nb) then
          let fnew := temp + heur nb endP
          let st1 : AState := { st with
            came_from := fun q => if q = nb then some current else st.came_from q,
            g_score := fun q => if q = nb then some temp else st.g_score q,
            f_score := fun q => if q = nb then some fnew else st.f_score q }
          let st2 : AState :=
            if st1.open_set_hash nb then st1
            else { st1 with
              count := st1.count + 1,
              heap := heappush ltA st1.heap (fnew, st1.count + 1, nb),
              open_set_hash := fun q => if q = nb then true else st1.open_set_hash q,
              colors := setc st1.colors nb GREEN }
          a_star_relax heur endP current st2 rest
        else a_star_relax heur endP current st rest

/-- The main while loop of a_star. A pause iteration consumes one fuel. -/
def a_star_loop (heur : Pos → Pos → Nat) (nbrs : Pos → List Pos) (startP endP : Pos)
    (sched : Nat → List Ev) (flick : Nat → Bool) : Nat → AState → Option (Bool × List Pos × AState)
  | 0, _ => none
  | fuel + 1, st =>
    if st.heap = [] then some (false, [], st)
    else
      let st1 : AState := { st with flags := process_events (sched st.pc) st.flags, pc := st.pc + 1 }
      if st1.flags.stop then some (false, [], st1)
      else if st1.flags.pause then a_star_loop heur nbrs startP endP sched flick fuel st1
      else
        match heappop ltA st1.heap with
        | none => some (false, [], st1)
        | some (entry, heap1) =>
          let current := entry.2.2
          let st2 : AState := { st1 with
            heap := heap1,
            open_set_hash := fun q => if q = current then false else st1.open_set_hash q,
            log := st1.log ++ [current] }
          if current = endP then
            let res := reconstruct_path fuel st2.came_from endP st2.colors
            let colors2 := setc res.1 endP PURPLE
            some (true, res.2, { st2 with colors := electric_pulse_path flick 1 res.2 colors2 })
          else
            match a_star_relax heur endP current st2 (nbrs current) with
            | (true, st3) => some (false, [], st3)
            | (false, st3) =>
              let st4 : AState :=
                if current ≠ startP then { st3 with colors := setc st3.colors current RED } else st3
              a_star_loop heur nbrs startP endP sched flick fuel st4

/-- The state of a_star just before its while loop: count = 0 and the start
node pushed with priority (0, 0). -/
def a_star_init (heur : Pos → Pos → Nat) (startP endP : Pos) (colors0 : Pos → Color) :
    AState :=
  { heap := [(0, 0, startP)], count := 0,
    came_from := fun _ => none,
    g_score := fun q => if q = startP then some 0 else none,
    f_score := fun q => if q = startP then some (heur startP endP) else none,
    open_set_hash := fun q => decide (q = startP),
    colors := colors0, flags := ⟨false, false, false⟩, pc := 0, log := [] }

def a_star_with (heur : Pos → Pos → Nat) (nbrs : Pos → List Pos) (startP endP : Pos)
    (colors0 : Pos → Color) (sched : Nat → List Ev) (flick : Nat → Bool) (fuel : Nat) :
    Option (Bool × List Pos × AState) :=
  a_star_loop heur nbrs startP endP sched flick fuel (a_star_init heur startP endP colors0)

/-- a_star as in the source: heuristic h is Manhattan distance. -/
def a_star := a_star_with manh

/-- a_star specialized to a zero heuristic, the comparison point of C2. -/
def a_star_zero := a_star_with (fun _ _ => 0)

/-! dijkstra -/

structure DState where
  heap : List (Nat × Pos)
  dist : Pos → Option Nat
  came_from : Pos → Option Pos
  colors : Pos → Color
  flags : Flags
  pc : Nat
  log : List Pos

def dijkstra_relax (current : Pos) (st : DState) : List Pos → Bool × DState
  | [] => (false, st)
  | nb :: rest =>
    if st.flags.stop then (true, st)
    else
      match st.dist current with
      | none => dijkstra_relax current st rest
      | some dc =>
        let temp := dc + 1
        if ltOpt temp (st.dist nb) then
          let st1 : DState := { st with
            came_from := fun q => if q = nb then some current else st.came_from q,
            dist := fun q => if q = nb then some temp else st.dist q,
            heap := heappush ltD st.heap (temp, nb),
            colors := setc st.colors nb GREEN }
          dijkstra_relax current st1 rest
        else dijkstra_relax current st rest

def dijkstra_loop (nbrs : Pos → List Pos) (startP endP : Pos) (sched : Nat → List Ev)
    (flick : Nat → Bool) : Nat → DState → Option (Bool × List Pos × DState)
  | 0, _ => none
  | fuel + 1, st =>
    if st.heap = [] then some (false, [], st)
    else
      let st1 : DState := { st with flags := process_events (sched st.pc) st.flags, pc := st.pc + 1 }
      if st1.flags.stop then some (false, [], st1)
      else if st1.flags.pause then dijkstra_loop nbrs startP endP sched flick fuel st1
      else
        match heappop ltD st1.heap with
        | none => some (false, [], st1)
        | some (entry, heap1) =>
          let current := entry.2
          let st2 : DState := { st1 with
            heap := heap1,
            log := st1.log ++ [current] }
          if current = endP then
            let res := reconstruct_path fuel st2.came_from endP st2.colors
            let colors2 := setc res.1 endP PURPLE
            some (true, res.2, { st2 with colors := electric_pulse_path flick 1 res.2 colors2 })
          else
            match dijkstra_relax current st2 (nbrs current) with
            | (true, st3) => some (false, [], st3)
            | (false, st3) =>
              let st4 : DState :=
                if current ≠ startP then { st3 with colors := setc st3.colors current RED } else st3
              dijkstra_loop nbrs startP endP sched flick fuel st4

def dijkstra (nbrs : Pos → List Pos) (startP endP : Pos) (colors0 : Pos → Color)
    (sched : Nat → List Ev) (flick : Nat → Bool) (fuel : Nat) :
    Option (Bool × List Pos × DState) :=
  dijkstra_loop nbrs startP endP sched flick fuel {
    heap := [(0, startP)],
    dist := fun q => if q = startP then some 0 else none,
    came_from := fun _ => none,
    colors := colors0, flags := ⟨false, false, false⟩, pc := 0, log := [] }

/-! bfs and dfs -/

structure QState where
  queue : List Pos
  visited : Pos → Bool
  came_from : Pos → Option Pos
  colors : Pos → Color
  flags : Flags
  pc : Nat
  log : List Pos

def search_relax (current : Pos) (st : QState) : List Pos → Bool × QState
  | [] => (false, st)
  | nb :: rest =>
    if st.flags.stop then (true, st)
    else if st.visited nb then search_relax current st rest
    else
      let st1 : QState := { st with
        visited := fun q => if q = nb then true else st.visited q,
        came_from := fun q => if q = nb then some current else st.came_from q,
        queue := st.queue ++ [nb],
        colors := setc st.colors nb GREEN }
      search_relax current st1 rest

/-- bfs: Queue() is FIFO, put appends, get takes the front. -/
def bfs_loop (nbrs : Pos → List Pos) (startP endP : Pos) (sched : Nat → List Ev)
    (flick : Nat → Bool) : Nat → QState → Option (Bool × List Pos × QState)
  | 0, _ => none
  | fuel + 1, st =>
    match st.queue with
    | [] => some (false, [], st)
    | _ :: _ =>
      let st1 : QState := { st with flags := process_events (sched st.pc) st.flags, pc := st.pc + 1 }
      if st1.flags.stop then some (false, [], st1)
      else if st1.flags.pause then bfs_loop nbrs startP endP sched flick fuel st1
      else
        match st1.queue with
        | [] => some (false, [], st1)
        | current :: rest =>
          let st2 : QState := { st1 with queue := rest, log := st1.log ++ [current] }
          if current = endP then
            let res := reconstruct_path fuel st2.came_from endP st2.colors
            let colors2 := setc res.1 endP PURPLE
            some (true, res.2, { st2 with colors := electric_pulse_path flick 1 res.2 colors2 })
          else
            match search_relax current st2 (nbrs current) with
            | (true, st3) => some (false, [], st3)
            | (false, st3) =>
              let st4 : QState :=
                if current ≠ startP then { st3 with colors := setc st3.colors current RED } else st3
              bfs_loop nbrs startP endP sched flick fuel st4

def bfs (nbrs : Pos → List Pos) (startP endP : Pos) (colors0 : Pos → Color)
    (sched : Nat → List Ev) (flick : Nat → Bool) (fuel : Nat) :
    Option (Bool × List Pos × QState) :=
  bfs_loop nbrs startP endP sched flick fuel {
    queue := [startP],
    visited := fun q => decide (q = startP),
    came_from := fun _ => none,
    colors := colors0, flags := ⟨false, false, false⟩, pc := 0, log := [] }

/-- dfs: LifoQueue put appends, get takes the back. -/
def dfs_loop (nbrs : Pos → List Pos) (startP endP : Pos) (sched : Nat → List Ev)
    (flick : Nat → Bool) : Nat → QState → Option (Bool × List Pos × QState)
  | 0, _ => none
  | fuel + 1, st =>
    match st.queue with
    | [] => some (false, [], st)
    | q0 :: qrest =>
      let st1 : QState := { st with flags := process_events (sched st.pc) st.flags, pc := st.pc + 1 }
      if st1.flags.stop then some (false, [], st1)
      else if st1.flags.pause then dfs_loop nbrs startP endP sched flick fuel st1
      else
        let current := (q0 :: qrest).getLast (by simp)
        let st2 : QState := { st1 with queue := (q0 :: qrest).dropLast, log := st1.log ++ [current] }
        if current = endP then
          let res := reconstruct_path fuel st2.came_from endP st2.colors
          let colors2 := setc res.1 endP PURPLE
          some (true, res.2, { st2 with colors := electric_pulse_path flick 1 res.2 colors2 })
        else
          match search_relax current st2 (nbrs current) with
          | (true, st3) => some (false, [], st3)
          | (false, st3) =>
            let st4 : QState :=
              if current ≠ startP then { st3 with colors := setc st3.colors current RED } else st3
            dfs_loop nbrs startP endP sched flick fuel st4

def dfs (nbrs : Pos → List Pos) (startP endP : Pos) (colors0 : Pos → Color)
    (sched : Nat → List Ev) (flick : Nat → Bool) (fuel : Nat) :
    Option (Bool × List Pos × QState) :=
  dfs_loop nbrs startP endP sched flick fuel {
    queue := [startP],
    visited := fun q => decide (q = startP),
    came_from := fun _ => none,
    colors := colors0, flags := ⟨false, false, false⟩, pc := 0, log := [] }


/-! Specification-side graph notions: orthogonal moves, barrier-free walks,
shortest move counts. These are the measuring sticks of the claims, defined
independently of the algorithm code. -/

/-- Two cells are one orthogonal unit move apart. -/
def adjacent (p q : Pos) : Prop :=
  (p.1 = q.1 ∧ (p.2 + 1 = q.2 ∨ q.2 + 1 = p.2)) ∨
  (p.2 = q.2 ∧ (p.1 + 1 = q.1 ∨ q.1 + 1 = p.1))

instance (p q : Pos) : Decidable (adjacent p q) :=
  inferInstanceAs (Decidable ((p.1 = q.1 ∧ (p.2 + 1 = q.2 ∨ q.2 + 1 = p.2)) ∨
    (p.2 = q.2 ∧ (p.1 + 1 = q.1 ∨ q.1 + 1 = p.1))))

/-- A cell a path may use: inside the rows × rows grid and not a barrier. -/
def okCell (rows : Nat) (colors : Pos → Color) (p : Pos) : Prop :=
  p.1 < rows ∧ p.2 < rows ∧ colors p ≠ BLACK

instance (rows : Nat) (colors : Pos → Color) (p : Pos) : Decidable (okCell rows colors p) :=
  inferInstanceAs (Decidable (p.1 < rows ∧ p.2 < rows ∧ colors p ≠ BLACK))

/-- A barrier-free orthogonal walk: consecutive cells adjacent, all cells ok. -/
def IsWalk (rows : Nat) (colors : Pos → Color) (w : List Pos) : Prop :=
  w.Chain' adjacent ∧ ∀ p ∈ w, okCell rows colors p

instance (rows : Nat) (colors : Pos → Color) (w : List Pos) : Decidable (IsWalk rows colors w) :=
  inferInstanceAs (Decidable (w.Chain' adjacent ∧ ∀ p ∈ w, okCell rows colors p))

/-- Boolean adjacency check along a list (kernel-friendly form of Chain'). -/
def chainAdjB : List Pos → Bool
  | [] => true
  | [_] => true
  | p :: q :: rest => decide (adjacent p q) && chainAdjB (q :: rest)

/-- There is a barrier-free walk of exactly n moves from s to e. -/
def ReachableN (rows : Nat) (colors : Pos → Color) (s e : Pos) (n : Nat) : Prop :=
  ∃ w : List Pos, IsWalk rows colors w ∧ w.head? = some s ∧ w.getLast? = some e ∧
    w.length = n + 1

def Reachable (rows : Nat) (colors : Pos → Color) (s e : Pos) : Prop :=
  ∃ n, ReachableN rows colors s e n

/-- n is the minimal number of orthogonal unit moves between s and e
avoiding barriers. -/
def IsShortest (rows : Nat) (colors : Pos → Color) (s e : Pos) (n : Nat) : Prop :=
  ReachableN rows colors s e n ∧ ∀ m, ReachableN rows colors s e m → n ≤ m

/-- The four cells orthogonally adjacent to p (with Nat-subtraction guards). -/
def adjList (p : Pos) : List Pos :=
  [(p.1 + 1, p.2)] ++ (if 0 < p.1 then [(p.1 - 1, p.2)] else []) ++
  [(p.1, p.2 + 1)] ++ (if 0 < p.2 then [(p.1, p.2 - 1)] else [])

/-- R is closed under barrier-free adjacency: a decidable separation
certificate for unreachability. -/
def closedUnder (rows : Nat) (colors : Pos → Color) (R : List Pos) : Bool :=
  R.all fun p => (adjList p).all fun q =>
    !(decide (okCell rows colors q)) || decide (q ∈ R)

/-- The came_from chain starting at v: the list of iterated predecessors,
ending at the first node with no predecessor. -/
inductive CameChain (cf : Pos → Option Pos) : Pos → List Pos → Prop
  | nil {v : Pos} : cf v = none → CameChain cf v []
  | cons {v u : Pos} {L : List Pos} : cf v = some u → CameChain cf u L →
      CameChain cf v (u :: L)

/-! The binary-heap shape invariant of CPython heapq. -/

/-- Every non-root position does not compare lt-below its parent. -/
def IsHeap (lt : α → α → Bool) (l : List α) : Prop :=
  ∀ i d, 0 < i → i < l.length → lt (l.getD i d) (l.getD ((i - 1) / 2) d) = false

/-! The grid-editing operations of the main loop. -/

structure MainSt where
  startPos : Option Pos
  endPos : Option Pos
  colors : Pos → Color

/-- Left-click paint (main loop): first click places Start, second places End,
later clicks place barriers; clicks on the existing Start or End fall through
every branch and change nothing. -/
def left_click (rows : Nat) (st : MainSt) (p : Pos) : MainSt :=
  if p.1 < rows ∧ p.2 < rows then
    if st.startPos = none ∧ some p ≠ st.endPos then
      { st with startPos := some p, colors := setc st.colors p ORANGE }
    else if st.endPos = none ∧ some p ≠ st.startPos then
      { st with endPos := some p, colors := setc st.colors p PURPLE }
    else if some p ≠ st.endPos ∧ some p ≠ st.startPos then
      { st with colors := setc st.colors p BLACK }
    else st
  else st

/-- Right-click erase: node.reset() plus clearing the matching role variable. -/
def right_click (rows : Nat) (st : MainSt) (p : Pos) : MainSt :=
  if p.1 < rows ∧ p.2 < rows then
    let colors := setc st.colors p WHITE
    if st.startPos = some p then { startPos := none, endPos := st.endPos, colors := colors }
    else if st.endPos = some p then { startPos := st.startPos, endPos := none, colors := colors }
    else { st with colors := colors }
  else st

/-- The C key while idle: make_grid afresh and forget Start and End. -/
def clear_grid : MainSt :=
  { startPos := none, endPos := none, colors := fun _ => WHITE }

/-- The at-most-one-Start / at-most-one-End role invariant: any cell painted
with the Start color is the tracked Start, and likewise for End. -/
def RolesOk (st : MainSt) : Prop :=
  (∀ p, st.colors p = ORANGE → st.startPos = some p) ∧
  (∀ p, st.colors p = PURPLE → st.endPos = some p)

/-! The spec-side semantics of one event poll, for C7: every pending event is
applied to the run-control flags. Modelled from the spec: it drains all
pending input events and updates RunControl accordingly. -/

def apply_event (fl : Flags) (e : Ev) : Flags :=
  match e with
  | Ev.quit => { fl with stop := true, clear := false }
  | Ev.keyC => { fl with stop := true, clear := true }
  | Ev.keyEsc => { fl with stop := true, clear := false }
  | Ev.keyP => { fl with pause := !fl.pause }
  | Ev.other => fl

/-- Modelled from the spec: the poll consumes the queue and the flags reflect
every event in it. -/
def process_all_events (l : List Ev) (fl : Flags) : Flags :=
  l.foldl apply_event fl

/-- The prefix of the batch the code actually applies: everything up to and
including the first control event (QUIT, C, ESCAPE or P). -/
def upto_first_control : List Ev → List Ev
  | [] => []
  | Ev.other :: rest => Ev.other :: upto_first_control rest
  | e :: _ => [e]

/-! Concrete grids for counterexamples and witnesses. -/

def noEv : Nat → List Ev := fun _ => []
def noFlick : Nat → Bool := fun _ => false

def barrierColors (l : List Pos) : Pos → Color := fun p => if p ∈ l then BLACK else WHITE

/-- The 9 × 9 grid on which a_star returns a non-shortest path. -/
def suboptBarriers : List Pos :=
  [(0,2),(1,2),(1,4),(2,4),(3,0),(3,1),(3,2),(3,4),(3,6),(4,6),(5,3),(5,4),(5,6),(6,6),(7,6)]

def suboptColors : Pos → Color := barrierColors suboptBarriers

def suboptNbrs : Pos → List Pos := update_neighbors 9 suboptColors

/-- A 16-move barrier-free walk from (7,7) to (0,0) on the subopt grid. -/
def suboptWitnessWalk : List Pos :=
  [(7,7),(8,7),(8,6),(8,5),(7,5),(6,5),(5,5),(4,5),(4,4),(4,3),(3,3),(2,3),(2,2),(2,1),(1,1),(0,1),(0,0)]

/-- The 7 × 7 grid with unreachable end on which a_star expands (0,6) twice. -/
def dupBarriers : List Pos := [(1,3),(2,3),(2,5),(3,3),(4,3),(5,6),(6,5)]

def dupColors : Pos → Color := barrierColors dupBarriers

def dupNbrs : Pos → List Pos := update_neighbors 7 dupColors

/-- The component of (4,2) on the dup grid: a separation certificate showing
(6,6) is unreachable. -/
def dupComponent : List Pos :=
  [(0,0),(0,1),(0,2),(0,3),(0,4),(0,5),(0,6),
   (1,0),(1,1),(1,2),(1,4),(1,5),(1,6),
   (2,0),(2,1),(2,2),(2,4),(2,6),
   (3,0),(3,1),(3,2),(3,4),(3,5),(3,6),
   (4,0),(4,1),(4,2),(4,4),(4,5),(4,6),
   (5,0),(5,1),(5,2),(5,3),(5,4),(5,5),
   (6,0),(6,1),(6,2),(6,3),(6,4)]

/-- The barrier-free 4 × 4 grid on which dijkstra and a_star-with-zero-h
expand nodes in different orders. -/
def tieColors : Pos → Color := fun _ => WHITE

def tieNbrs : Pos → List Pos := update_neighbors 4 tieColors

/-! The frontier invariant of a_star: the heap has the binary-heap shape
under the Python tuple comparison, every entry's insertion counter is at
most the current counter, and no two entries share a counter. -/

def AInv (st : AState) : Prop :=
  IsHeap ltA st.heap ∧
  (∀ e ∈ st.heap, e.2.1 ≤ st.count) ∧
  st.heap.Pairwise (fun e1 e2 => e1.2.1 ≠ e2.2.1)

/-- A one-entry frontier state used to exercise the C3 properties: the start
node expanded with cost 0, the neighbor (0, 1) already in open_set_hash. -/
def c3WitnessState : AState :=
  { heap := [(0, 0, (0, 0))], count := 0,
    came_from := fun _ => none,
    g_score := fun q => if q = ((0 : Nat), (0 : Nat)) then some 0 else none,
    f_score := fun _ => none,
    open_set_hash := fun _ => true,
    colors := tieColors, flags := ⟨false, false, false⟩, pc := 0, log := [] }

/-! C6: the neighbor query. -/

theorem adjacent_iff_mem_adjList (p q : Pos) : adjacent p q ↔ q ∈ adjList p := by
  rcases p with ⟨a, b⟩
  rcases q with ⟨c, d⟩
  unfold adjacent adjList
  by_cases ha : 0 < a <;> by_cases hb : 0 < b <;>
    simp [ha, hb, Prod.ext_iff] <;> omega

theorem update_neighbors_eq_filter (rows : Nat) (colors : Pos → Color) (p : Pos)
    (hr : p.1 < rows) (hc : p.2 < rows) :
    update_neighbors rows colors p =
      (adjList p).filter (fun q => decide (okCell rows colors q)) := by
  rcases p with ⟨a, b⟩
  simp only at hr hc
  unfold update_neighbors adjList
  simp only [List.filter_append]
  have h1 : (if a < rows - 1 ∧ is_barrier colors (a + 1, b) = false then [((a + 1 : Nat), b)] else [])
      = List.filter (fun q => decide (okCell rows colors q)) [(a + 1, b)] := by
    by_cases hok : okCell rows colors (a + 1, b)
    · have hg : a < rows - 1 ∧ is_barrier colors (a + 1, b) = false := by
        obtain ⟨hlt, _, hne⟩ := hok
        exact ⟨by omega, by unfold is_barrier; exact decide_eq_false hne⟩
      rw [if_pos hg]
      simp [List.filter_singleton, hok]
    · have hg : ¬ (a < rows - 1 ∧ is_barrier colors (a + 1, b) = false) := by
        rintro ⟨hlt, hbar⟩
        unfold is_barrier at hbar
        rw [decide_eq_false_iff_not] at hbar
        exact hok ⟨by omega, hc, hbar⟩
      rw [if_neg hg]
      simp [List.filter_singleton, hok]
  have h2 : (if 0 < a ∧ is_barrier colors (a - 1, b) = false then [((a - 1 : Nat), b)] else [])
      = List.filter (fun q => decide (okCell rows colors q))
          (if 0 < a then [((a - 1 : Nat), b)] else []) := by
    by_cases ha : 0 < a
    · rw [if_pos ha]
      by_cases hok : okCell rows colors (a - 1, b)
      · have hg : 0 < a ∧ is_barrier colors (a - 1, b) = false := by
          obtain ⟨_, _, hne⟩ := hok
          exact ⟨ha, by unfold is_barrier; exact decide_eq_false hne⟩
        rw [if_pos hg]
        simp [List.filter_singleton, hok]
      · have hg : ¬ (0 < a ∧ is_barrier colors (a - 1, b) = false) := by
          rintro ⟨_, hbar⟩
          unfold is_barrier at hbar
          rw [decide_eq_false_iff_not] at hbar
          exact hok ⟨by omega, hc, hbar⟩
        rw [if_neg hg]
        simp [List.filter_singleton, hok]
    · rw [if_neg ha]
      have hg : ¬ (0 < a ∧ is_barrier colors (a - 1, b) = false) := by
        rintro ⟨hcontra, _⟩
        exact ha hcontra
      rw [if_neg hg]
      simp
  have h3 : (if b < rows - 1 ∧ is_barrier colors (a, b + 1) = false then [(a, (b + 1 : Nat))] else [])
      = List.filter (fun q => decide (okCell rows colors q)) [(a, b + 1)] := by
    by_cases hok : okCell rows colors (a, b + 1)
    · have hg : b < rows - 1 ∧ is_barrier colors (a, b + 1) = false := by
        obtain ⟨_, hlt, hne⟩ := hok
        exact ⟨by omega, by unfold is_barrier; exact decide_eq_false hne⟩
      rw [if_pos hg]
      simp [List.filter_singleton, hok]
    · have hg : ¬ (b < rows - 1 ∧ is_barrier colors (a, b + 1) = false) := by
        rintro ⟨hlt, hbar⟩
        unfold is_barrier at hbar
        rw [decide_eq_false_iff_not] at hbar
        exact hok ⟨hr, by omega, hbar⟩
      rw [if_neg hg]
      simp [List.filter_singleton, hok]
  have h4 : (if 0 < b ∧ is_barrier colors (a, b - 1) = false then [(a, (b - 1 : Nat))] else [])
      = List.filter (fun q => decide (okCell rows colors q))
          (if 0 < b then [(a, (b - 1 : Nat))] else []) := by
    by_cases hb : 0 < b
    · rw [if_pos hb]
      by_cases hok : okCell rows colors (a, b - 1)
      · have hg : 0 < b ∧ is_barrier colors (a, b - 1) = false := by
          obtain ⟨_, _, hne⟩ := hok
          exact ⟨hb, by unfold is_barrier; exact decide_eq_false hne⟩
        rw [if_pos hg]
        simp [List.filter_singleton, hok]
      · have hg : ¬ (0 < b ∧ is_barrier colors (a, b - 1) = false) := by
          rintro ⟨_, hbar⟩
          unfold is_barrier at hbar
          rw [decide_eq_false_iff_not] at hbar
          exact hok ⟨hr, by omega, hbar⟩
        rw [if_neg hg]
        simp [List.filter_singleton, hok]
    · rw [if_neg hb]
      have hg : ¬ (0 < b ∧ is_barrier colors (a, b - 1) = false) := by
        rintro ⟨hcontra, _⟩
        exact hb hcontra
      rw [if_neg hg]
      simp
  rw [h1, h2, h3, h4]

/-- C6: for every in-bounds position, update_neighbors returns exactly the
orthogonally adjacent, in-bounds, non-barrier cells, in the fixed geometric
order down, up, right, left (adjList order filtered by cell validity). -/
theorem c6_neighbors (rows : Nat) (colors : Pos → Color) (p : Pos)
    (hr : p.1 < rows) (hc : p.2 < rows) :
    (∀ q, q ∈ update_neighbors rows colors p ↔ adjacent p q ∧ okCell rows colors q) ∧
    update_neighbors rows colors p =
      (adjList p).filter (fun q => decide (okCell rows colors q)) := by
  have key := update_neighbors_eq_filter rows colors p hr hc
  refine ⟨fun q => ?_, key⟩
  rw [key, List.mem_filter, decide_eq_true_eq, adjacent_iff_mem_adjList]

/-- C6 witness: the characterization instantiated at position (1,2) of the
barrier-free 4 × 4 grid. -/
theorem c6_neighbors_witness :
    ((1:Nat), (2:Nat)).1 < 4 ∧ ((1:Nat), (2:Nat)).2 < 4 ∧
    ((∀ q, q ∈ update_neighbors 4 tieColors (1, 2) ↔
        adjacent (1, 2) q ∧ okCell 4 tieColors q) ∧
      update_neighbors 4 tieColors (1, 2) =
        (adjList (1, 2)).filter (fun q => decide (okCell 4 tieColors q))) :=
  ⟨by decide, by decide, c6_neighbors 4 tieColors (1, 2) (by decide) (by decide)⟩

/-! C7: the event poll. -/

/-- C7 counterexample: with two pending pause-toggle events, one poll leaves
pause = true, although flags reflecting both events would leave pause = false
(the second toggle is discarded by the early return). The analogous loss turns
a pending ESC after P into no stop request at all. -/
theorem c7_counterexample :
    process_events [Ev.keyP, Ev.keyP] ⟨false, false, false⟩ ≠
      process_all_events [Ev.keyP, Ev.keyP] ⟨false, false, false⟩ ∧
    process_events [Ev.keyP, Ev.keyP] ⟨false, false, false⟩ =
      ⟨false, true, false⟩ ∧
    process_all_events [Ev.keyP, Ev.keyP] ⟨false, false, false⟩ =
      ⟨false, false, false⟩ ∧
    (process_events [Ev.keyP, Ev.keyEsc] ⟨false, false, false⟩).stop = false ∧
    (process_all_events [Ev.keyP, Ev.keyEsc] ⟨false, false, false⟩).stop = true := by
  refine ⟨?_, by decide, by decide, by decide, by decide⟩
  decide

/-- C7 amended: one poll consumes the whole queue, but the flags reflect only
the events up to and including the first control event (QUIT, C, ESCAPE or P);
any later events of the same batch are discarded. -/
theorem c7_amended (l : List Ev) (fl : Flags) :
    process_events l fl = process_all_events (upto_first_control l) fl := by
  induction l generalizing fl with
  | nil => rfl
  | cons e rest ih =>
    cases e <;>
      simp [process_events, process_all_events, upto_first_control, apply_event, ih]

/-- C7 amended witness: the amended description evaluated on the concrete
batch P then ESC. -/
theorem c7_amended_witness :
    process_events [Ev.keyP, Ev.keyEsc] ⟨false, false, false⟩ =
      process_all_events (upto_first_control [Ev.keyP, Ev.keyEsc]) ⟨false, false, false⟩ :=
  c7_amended [Ev.keyP, Ev.keyEsc] ⟨false, false, false⟩

/-! C8: grid-edit role invariants. -/

/-- C8: every grid-edit operation (left-click paint, right-click erase, C-key
clear) preserves the at-most-one-Start / at-most-one-End invariant, and a left
click on the cell currently holding Start or End falls through every paint
branch: the state is unchanged and no signal is raised. -/
theorem c8_edit_invariant (rows : Nat) (st : MainSt) (p : Pos) (hInv : RolesOk st) :
    RolesOk (left_click rows st p) ∧
    RolesOk (right_click rows st p) ∧
    RolesOk clear_grid ∧
    (st.startPos = some p → left_click rows st p = st) ∧
    (st.endPos = some p → left_click rows st p = st) := by
  obtain ⟨hS, hE⟩ := hInv
  have hclear : RolesOk clear_grid := by
    constructor <;> intro q hq <;> simp [clear_grid] at hq <;>
      simp [WHITE, ORANGE, PURPLE, Prod.ext_iff] at hq
  have hleft : RolesOk (left_click rows st p) := by
    unfold left_click
    split
    · split
      · rename_i hcond
        constructor
        · intro q hq
          simp only [setc] at hq
          by_cases hqp : q = p
          · simp [hqp]
          · rw [if_neg hqp] at hq
            exact absurd (hS q hq) (by simp [hcond.1])
        · intro q hq
          simp only [setc] at hq
          by_cases hqp : q = p
          · rw [if_pos hqp] at hq
            simp [ORANGE, PURPLE, Prod.ext_iff] at hq
          · rw [if_neg hqp] at hq
            exact hE q hq
      · split
        · rename_i hcond
          constructor
          · intro q hq
            simp only [setc] at hq
            by_cases hqp : q = p
            · rw [if_pos hqp] at hq
              simp [ORANGE, PURPLE, Prod.ext_iff] at hq
            · rw [if_neg hqp] at hq
              exact hS q hq
          · intro q hq
            simp only [setc] at hq
            by_cases hqp : q = p
            · simp [hqp]
            · rw [if_neg hqp] at hq
              exact absurd (hE q hq) (by simp [hcond.1])
        · split
          · rename_i hcond
            constructor
            · intro q hq
              simp only [setc] at hq
              by_cases hqp : q = p
              · rw [if_pos hqp] at hq
                simp [BLACK, ORANGE, Prod.ext_iff] at hq
              · rw [if_neg hqp] at hq
                exact hS q hq
            · intro q hq
              simp only [setc] at hq
              by_cases hqp : q = p
              · rw [if_pos hqp] at hq
                simp [BLACK, PURPLE, Prod.ext_iff] at hq
              · rw [if_neg hqp] at hq
                exact hE q hq
          · exact ⟨hS, hE⟩
    · exact ⟨hS, hE⟩
  have hright : RolesOk (right_click rows st p) := by
    unfold right_click
    split
    · split
      · constructor
        · intro q hq
          simp only [setc] at hq
          by_cases hqp : q = p
          · rw [if_pos hqp] at hq
            simp [WHITE, ORANGE, Prod.ext_iff] at hq
          · rw [if_neg hqp] at hq
            exact absurd (hS q hq) (by rename_i hsp; simp [hsp]; rintro rfl; exact hqp rfl)
        · intro q hq
          simp only [setc] at hq
          by_cases hqp : q = p
          · rw [if_pos hqp] at hq
            simp [WHITE, PURPLE, Prod.ext_iff] at hq
          · rw [if_neg hqp] at hq
            exact hE q hq
      · split
        · constructor
          · intro q hq
            simp only [setc] at hq
            by_cases hqp : q = p
            · rw [if_pos hqp] at hq
              simp [WHITE, ORANGE, Prod.ext_iff] at hq
            · rw [if_neg hqp] at hq
              exact hS q hq
          · intro q hq
            simp only [setc] at hq
            by_cases hqp : q = p
            · rw [if_pos hqp] at hq
              simp [WHITE, PURPLE, Prod.ext_iff] at hq
            · rw [if_neg hqp] at hq
              exact absurd (hE q hq) (by rename_i hep; simp [hep]; rintro rfl; exact hqp rfl)
        · constructor
          · intro q hq
            simp only [setc] at hq
            by_cases hqp : q = p
            · rw [if_pos hqp] at hq
              simp [WHITE, ORANGE, Prod.ext_iff] at hq
            · rw [if_neg hqp] at hq
              exact hS q hq
          · intro q hq
            simp only [setc] at hq
            by_cases hqp : q = p
            · rw [if_pos hqp] at hq
              simp [WHITE, PURPLE, Prod.ext_iff] at hq
            · rw [if_neg hqp] at hq
              exact hE q hq
    · exact ⟨hS, hE⟩
  have hstartig : st.startPos = some p → left_click rows st p = st := by
    intro hsp
    unfold left_click
    split
    · rw [if_neg (by simp [hsp]), if_neg (by simp [hsp]), if_neg (by simp [hsp])]
    · rfl
  have hendig : st.endPos = some p → left_click rows st p = st := by
    intro hep
    unfold left_click
    split
    · rw [if_neg (by simp [hep]), if_neg (by simp [hep]), if_neg (by simp [hep])]
    · rfl
  exact ⟨hleft, hright, hclear, hstartig, hendig⟩

/-- C8 witness: the invariant theorem applied to a concrete one-start state
and a click on that start cell. -/
theorem c8_edit_invariant_witness :
    RolesOk (left_click 4 ⟨some (1, 1), none, setc (fun _ => WHITE) (1, 1) ORANGE⟩ (1, 1)) ∧
    RolesOk (right_click 4 ⟨some (1, 1), none, setc (fun _ => WHITE) (1, 1) ORANGE⟩ (1, 1)) ∧
    RolesOk clear_grid ∧
    ((⟨some (1, 1), none, setc (fun _ => WHITE) (1, 1) ORANGE⟩ : MainSt).startPos = some (1, 1) →
      left_click 4 ⟨some (1, 1), none, setc (fun _ => WHITE) (1, 1) ORANGE⟩ (1, 1) =
        ⟨some (1, 1), none, setc (fun _ => WHITE) (1, 1) ORANGE⟩) ∧
    ((⟨some (1, 1), none, setc (fun _ => WHITE) (1, 1) ORANGE⟩ : MainSt).endPos = some (1, 1) →
      left_click 4 ⟨some (1, 1), none, setc (fun _ => WHITE) (1, 1) ORANGE⟩ (1, 1) =
        ⟨some (1, 1), none, setc (fun _ => WHITE) (1, 1) ORANGE⟩) :=
  c8_edit_invariant 4 _ (1, 1) (by
    constructor <;> intro q hq <;> simp only [setc] at hq
    · by_cases hq1 : q = ((1 : Nat), (1 : Nat))
      · simp [hq1]
      · rw [if_neg hq1] at hq
        simp [WHITE, ORANGE, Prod.ext_iff] at hq
    · by_cases hq1 : q = ((1 : Nat), (1 : Nat))
      · rw [if_pos hq1] at hq
        simp [ORANGE, PURPLE, Prod.ext_iff] at hq
      · rw [if_neg hq1] at hq
        simp [WHITE, PURPLE, Prod.ext_iff] at hq)

/-! C9: the pulse animator is observational. -/

theorem setc_ne (colors : Pos → Color) (p q : Pos) (v : Color) (h : q ≠ p) :
    setc colors p v q = colors q := by
  simp [setc, h]

theorem setc_self (colors : Pos → Color) (p : Pos) (v : Color) :
    setc colors p v p = v := by
  simp [setc]

theorem getD_mem_of_lt {L : List Pos} {k : Nat} (h : k < L.length) (d : Pos) :
    L.getD k d ∈ L := by
  rw [List.getD_eq_getElem?_getD, List.getElem?_eq_getElem h]
  exact List.getElem_mem h

theorem pulse_frame_outside (path : List Pos) (flick : Nat → Bool)
    (original colors : Pos → Color) (i : Nat) (hi : i < path.length)
    (q : Pos) (hq : q ∉ path) :
    pulse_frame path flick original colors i q = colors q := by
  have hne : ∀ k, k < path.length → q ≠ path.getD k (0, 0) := by
    intro k hk hcontra
    exact hq (hcontra ▸ getD_mem_of_lt hk (0, 0))
  have e2 : q ≠ path.getD (i - 2) (0, 0) := hne _ (by omega)
  have e1 : q ≠ path.getD (i - 1) (0, 0) := hne _ (by omega)
  have e0 : q ≠ path.getD i (0, 0) := hne _ hi
  unfold pulse_frame
  by_cases h4 : i + 1 < path.length
  · have e3 : q ≠ path.getD (i + 1) (0, 0) := hne _ h4
    rw [if_pos h4, setc_ne _ _ _ _ e3]
    split_ifs <;>
      simp only [setc_ne _ _ _ _ e2, setc_ne _ _ _ _ e1, setc_ne _ _ _ _ e0]
  · rw [if_neg h4]
    split_ifs <;>
      simp only [setc_ne _ _ _ _ e2, setc_ne _ _ _ _ e1, setc_ne _ _ _ _ e0]

theorem foldl_setc_outside (f : Pos → Color) (L : List Pos) (c0 : Pos → Color)
    (q : Pos) (hq : q ∉ L) :
    (L.foldl (fun c n => setc c n (f n)) c0) q = c0 q := by
  induction L generalizing c0 with
  | nil => rfl
  | cons n rest ih =>
    have hqn : q ≠ n := fun h => hq (h ▸ List.mem_cons_self n rest)
    have hqr : q ∉ rest := fun h => hq (List.mem_cons_of_mem n h)
    rw [List.foldl_cons, ih _ hqr, setc_ne _ _ _ _ hqn]

theorem foldl_setc_const_mem (L : List Pos) (c0 : Pos → Color) (v : Color)
    (q : Pos) (hq : q ∈ L) :
    (L.foldl (fun c n => setc c n v) c0) q = v := by
  induction L generalizing c0 with
  | nil => exact absurd hq (List.not_mem_nil q)
  | cons n rest ih =>
    rw [List.foldl_cons]
    by_cases hqr : q ∈ rest
    · exact ih _ hqr
    · have hqn : q = n := by
        rcases List.mem_cons.mp hq with h | h
        · exact h
        · exact absurd h hqr
      rw [foldl_setc_outside (fun _ => v) rest _ q hqr, hqn, setc_self]

theorem foldl_frames_outside (path : List Pos) (flick : Nat → Bool)
    (original : Pos → Color) (is : List Nat) (his : ∀ i ∈ is, i < path.length)
    (c0 : Pos → Color) (q : Pos) (hq : q ∉ path) :
    (is.foldl (pulse_frame path flick original) c0) q = c0 q := by
  induction is generalizing c0 with
  | nil => rfl
  | cons i rest ih =>
    rw [List.foldl_cons, ih (fun j hj => his j (List.mem_cons_of_mem i hj))]
    exact pulse_frame_outside path flick original c0 i
      (his i (List.mem_cons_self i rest)) q hq

theorem pulse_pass_outside (path : List Pos) (flick : Nat → Bool)
    (original : Pos → Color) (c0 : Pos → Color) (q : Pos) (hq : q ∉ path) :
    pulse_pass path flick original c0 q = c0 q := by
  unfold pulse_pass
  rw [foldl_setc_outside original path _ q hq]
  exact foldl_frames_outside path flick original _ (fun i hi => List.mem_range.mp hi) c0 q hq

theorem pulse_passes_outside (path : List Pos) (flick : Nat → Bool)
    (original : Pos → Color) (n : Nat) (c0 : Pos → Color) (q : Pos) (hq : q ∉ path) :
    pulse_passes path flick original n c0 q = c0 q := by
  induction n generalizing c0 with
  | zero => rfl
  | succ m ih =>
    unfold pulse_passes
    rw [ih, pulse_pass_outside path flick original c0 q hq]

/-- C9: the pulse animator is strictly observational. For every flicker
stream and every pulse count, if every path node shows the Path color on
entry (as it does after reconstruction), the animator returns the exact
entry state: path nodes settle back to Path yellow and no other cell is
ever modified, so skipping it entirely changes nothing. -/
theorem c9_pulse_observational (flick : Nat → Bool) (pulses : Nat)
    (path_nodes : List Pos) (colors : Pos → Color)
    (hyellow : ∀ p ∈ path_nodes, colors p = YELLOW) :
    electric_pulse_path flick pulses path_nodes colors = colors := by
  funext q
  unfold electric_pulse_path
  split
  · rfl
  · by_cases hq : q ∈ path_nodes.reverse
    · rw [foldl_setc_const_mem _ _ _ _ hq]
      exact (hyellow q (List.mem_reverse.mp hq)).symm
    · rw [foldl_setc_outside (fun _ => YELLOW) _ _ q hq]
      exact pulse_passes_outside _ flick colors pulses colors q hq

/-- C9 witness: the animator on a concrete two-node path whose nodes are
Path-colored leaves the state untouched. -/
theorem c9_pulse_observational_witness :
    electric_pulse_path noFlick 1 [(0, 0), (0, 1)]
        (fun p => if p ∈ [((0:Nat), (0:Nat)), (0, 1)] then YELLOW else WHITE) =
      (fun p => if p ∈ [((0:Nat), (0:Nat)), (0, 1)] then YELLOW else WHITE) :=
  c9_pulse_observational noFlick 1 _ _ (by
    intro p hp
    simp only [List.mem_cons, List.not_mem_nil, or_false] at hp
    rcases hp with rfl | rfl <;> decide)

/-! C10: path reconstruction. -/

/-- reconstruct_path computes exactly the came_from chain, marking every
chain node Path yellow and touching nothing else, as soon as the fuel
exceeds the chain length. -/
theorem reconstruct_path_spec (cf : Pos → Option Pos) (v : Pos) (L : List Pos)
    (colors : Pos → Color) (fuel : Nat) (hchain : CameChain cf v L)
    (hfuel : L.length < fuel) :
    reconstruct_path fuel cf v colors =
      (fun q => if q ∈ L then YELLOW else colors q, L) := by
  induction hchain generalizing colors fuel with
  | nil hv =>
    match fuel, hfuel with
    | f + 1, _ =>
      unfold reconstruct_path
      rw [hv]
      have hc : (fun q => if q ∈ ([] : List Pos) then YELLOW else colors q) = colors := by
        funext q
        simp
      rw [hc]
  | @cons w u L2 hv hch ih =>
    match fuel, hfuel with
    | f + 1, hfuel =>
      unfold reconstruct_path
      rw [hv]
      have hrec := ih (setc colors u YELLOW) f (by simpa using Nat.lt_of_succ_lt_succ hfuel)
      dsimp only
      rw [hrec]
      have hc : (fun q => if q ∈ L2 then YELLOW else setc colors u YELLOW q) =
          (fun q => if q ∈ u :: L2 then YELLOW else colors q) := by
        funext q
        simp only [List.mem_cons]
        by_cases hqL : q ∈ L2
        · simp [hqL]
        · by_cases hqu : q = u
          · simp [hqu, hqL, setc_self]
          · simp [hqu, hqL, setc_ne _ _ _ _ hqu]
      rw [hc]

/-- Every node on a came_from chain has strictly smaller rank than the chain
head, for any rank function that decreases along came_from. -/
theorem cameChain_rank_lt (cf : Pos → Option Pos) (rank : Pos → Nat)
    (hrank : ∀ v u, cf v = some u → rank u < rank v) (v : Pos) (L : List Pos)
    (hchain : CameChain cf v L) : ∀ x ∈ L, rank x < rank v := by
  induction hchain with
  | nil _ =>
    intro x hx
    exact absurd hx (List.not_mem_nil x)
  | @cons w u L2 hv hch ih =>
    intro x hx
    rcases List.mem_cons.mp hx with rfl | hx2
    · exact hrank _ _ hv
    · exact Nat.lt_trans (ih x hx2) (hrank _ _ hv)

/-- A nonempty came_from chain ends at a node with no predecessor. -/
theorem cameChain_last (cf : Pos → Option Pos) (v : Pos) (L : List Pos)
    (hchain : CameChain cf v L) (hne : L ≠ []) :
    ∃ s, L.getLast? = some s ∧ cf s = none := by
  induction hchain with
  | nil _ => exact absurd rfl hne
  | @cons w u L2 hv hch ih =>
    by_cases hL2 : L2 = []
    · subst hL2
      cases hch with
      | nil hu => exact ⟨u, by simp, hu⟩
    · obtain ⟨x, xs, rfl⟩ := List.exists_cons_of_ne_nil hL2
      obtain ⟨s, hs1, hs2⟩ := ih hL2
      refine ⟨s, ?_, hs2⟩
      rw [List.getLast?_cons_cons]
      exact hs1

theorem mem_of_getLast?_eq (L : List Pos) (s : Pos) (h : L.getLast? = some s) : s ∈ L := by
  have hmem : s ∈ L.getLast? := by
    rw [h]
    rfl
  obtain ⟨hne, rfl⟩ := List.mem_getLast?_eq_getLast hmem
  exact List.getLast_mem hne

/-- C10: on a GoalReached outcome, reconstruction walks the predecessor chain
of the goal: the returned list is exactly that chain, which starts at the
goal's predecessor and ends at Start (the node with no predecessor) inclusive;
every chain node, Start included, is overwritten with the Path mark; the goal
itself is never in the list and its cell is left untouched by reconstruction
(its appearance is restored only by the explicit make_end step afterwards).
The rank hypothesis — came_from decreases some rank, as the searches
guarantee — rules out cycles through the goal. -/
theorem c10_reconstruct (cf : Pos → Option Pos) (endP : Pos) (L : List Pos)
    (colors : Pos → Color) (fuel : Nat) (rank : Pos → Nat)
    (hchain : CameChain cf endP L) (hfuel : L.length < fuel)
    (hrank : ∀ v u, cf v = some u → rank u < rank v) :
    (reconstruct_path fuel cf endP colors).2 = L ∧
    (reconstruct_path fuel cf endP colors).1 =
      (fun q => if q ∈ L then YELLOW else colors q) ∧
    endP ∉ L ∧
    (reconstruct_path fuel cf endP colors).1 endP = colors endP ∧
    (L ≠ [] → L.head? = cf endP ∧
      ∃ s, L.getLast? = some s ∧ cf s = none ∧
        (reconstruct_path fuel cf endP colors).1 s = YELLOW) := by
  have hspec := reconstruct_path_spec cf endP L colors fuel hchain hfuel
  have hnotmem : endP ∉ L := by
    intro hmem
    exact Nat.lt_irrefl _ (cameChain_rank_lt cf rank hrank endP L hchain endP hmem)
  refine ⟨by rw [hspec], by rw [hspec], hnotmem, ?_, ?_⟩
  · rw [hspec]
    simp [hnotmem]
  · intro hne
    have hhead : L.head? = cf endP := by
      cases hchain with
      | nil hv => exact absurd rfl hne
      | cons hv _ => simp [hv]
    obtain ⟨s, hs1, hs2⟩ := cameChain_last cf endP L hchain hne
    refine ⟨hhead, s, hs1, hs2, ?_⟩
    rw [hspec]
    have hsmem : s ∈ L := mem_of_getLast?_eq L s hs1
    simp [hsmem]

/-- C10 witness: a concrete two-cell chain (0,1) ↦ (0,0). -/
theorem c10_reconstruct_witness :
    ((reconstruct_path 5 (fun v => if v = ((0:Nat), (1:Nat)) then some (0, 0) else none)
        (0, 1) (fun _ => WHITE)).2 = [(0, 0)] ∧
      (reconstruct_path 5 (fun v => if v = ((0:Nat), (1:Nat)) then some (0, 0) else none)
        (0, 1) (fun _ => WHITE)).1 =
        (fun q => if q ∈ [((0:Nat), (0:Nat))] then YELLOW else (fun _ => WHITE) q) ∧
      ((0:Nat), (1:Nat)) ∉ [((0:Nat), (0:Nat))] ∧
      (reconstruct_path 5 (fun v => if v = ((0:Nat), (1:Nat)) then some (0, 0) else none)
        (0, 1) (fun _ => WHITE)).1 (0, 1) = (fun _ => WHITE) ((0:Nat), (1:Nat)) ∧
      ([((0:Nat), (0:Nat))] ≠ ([] : List Pos) → [((0:Nat), (0:Nat))].head? =
          (fun v => if v = ((0:Nat), (1:Nat)) then some ((0:Nat), (0:Nat)) else none) (0, 1) ∧
        ∃ s, [((0:Nat), (0:Nat))].getLast? = some s ∧
          (fun v => if v = ((0:Nat), (1:Nat)) then some ((0:Nat), (0:Nat)) else none) s = none ∧
          (reconstruct_path 5 (fun v => if v = ((0:Nat), (1:Nat)) then some (0, 0) else none)
            (0, 1) (fun _ => WHITE)).1 s = YELLOW)) :=
  c10_reconstruct (fun v => if v = ((0:Nat), (1:Nat)) then some (0, 0) else none)
    (0, 1) [(0, 0)] (fun _ => WHITE) 5 (fun p => p.2)
    (CameChain.cons (by decide) (CameChain.nil (by decide))) (by decide)
    (by
      intro v u hvu
      by_cases hv : v = ((0:Nat), (1:Nat))
      · subst hv
        simp at hvu
        subst hvu
        decide
      · simp only [if_neg hv] at hvu
        cases hvu)

/-! Unreachability by a closed separating set, and the concrete
counterexamples for C1, C2 and C4. -/

theorem chainAdjB_iff (w : List Pos) : chainAdjB w = true ↔ w.Chain' adjacent := by
  induction w with
  | nil => simp [chainAdjB]
  | cons p rest ih =>
    cases rest with
    | nil => simp [chainAdjB]
    | cons q rest2 =>
      rw [chainAdjB, List.chain'_cons, Bool.and_eq_true, decide_eq_true_eq]
      exact and_congr_right fun _ => ih

theorem walk_stays_in_closed (rows : Nat) (colors : Pos → Color) (R : List Pos)
    (hclosed : closedUnder rows colors R = true) :
    ∀ w : List Pos, w.Chain' adjacent → (∀ p ∈ w, okCell rows colors p) →
      ∀ s, w.head? = some s → s ∈ R → ∀ x ∈ w, x ∈ R := by
  intro w
  induction w with
  | nil =>
    intro _ _ s hs _ x hx
    exact absurd hx (List.not_mem_nil x)
  | cons a rest ih =>
    intro hchain hok s hs hsR x hx
    have haR : a ∈ R := by
      simp only [List.head?_cons, Option.some.injEq] at hs
      exact hs ▸ hsR
    rcases List.mem_cons.mp hx with rfl | hx2
    · exact haR
    · match rest, hchain, hx2 with
      | b :: rest2, hchain, hx2 =>
        have hadj : adjacent a b := (List.chain'_cons.mp hchain).1
        have hbR : b ∈ R := by
          have hmem : b ∈ adjList a := (adjacent_iff_mem_adjList a b).mp hadj
          have := (List.all_eq_true.mp hclosed) a haR
          have hb := (List.all_eq_true.mp this) b hmem
          rcases (Bool.or_eq_true _ _).mp hb with h | h
          · exact absurd (hok b (List.mem_cons_of_mem a (List.mem_cons_self b rest2)))
              (by simpa using h)
          · exact of_decide_eq_true h
        exact ih (List.chain'_cons.mp hchain).2
          (fun p hp => hok p (List.mem_cons_of_mem a hp)) b rfl hbR x hx2

theorem not_reachable_of_closed (rows : Nat) (colors : Pos → Color) (R : List Pos)
    (s e : Pos) (hclosed : closedUnder rows colors R = true) (hs : s ∈ R) (he : e ∉ R) :
    ¬ Reachable rows colors s e := by
  rintro ⟨n, w, ⟨hchain, hok⟩, hhead, hlast, _⟩
  have hall := walk_stays_in_closed rows colors R hclosed w hchain hok s hhead hs
  exact he (hall e (mem_of_getLast?_eq w e hlast))

/-- C1 counterexample: on the concrete 9 × 9 subopt grid a_star reports Found
but reconstructs an 18-move path, while a barrier-free 16-move walk exists, so
the a_star path's move count is not the minimal move count. -/
theorem c1_counterexample :
    (a_star suboptNbrs (7, 7) (0, 0) suboptColors noEv noFlick 200).map
        (fun r => (r.1, r.2.1)) =
      some (true,
        [(0,1),(1,1),(2,1),(2,2),(2,3),(1,3),(0,3),(0,4),(0,5),(0,6),(0,7),(1,7),
         (2,7),(3,7),(4,7),(5,7),(6,7),(7,7)]) ∧
    ReachableN 9 suboptColors (7, 7) (0, 0) 16 ∧
    ∀ n, IsShortest 9 suboptColors (7, 7) (0, 0) n →
      n ≠ ([(0,1),(1,1),(2,1),(2,2),(2,3),(1,3),(0,3),(0,4),(0,5),(0,6),(0,7),(1,7),
         (2,7),(3,7),(4,7),(5,7),(6,7),(7,7)] : List Pos).length := by
  have hwalk : IsWalk 9 suboptColors suboptWitnessWalk :=
    ⟨(chainAdjB_iff _).mp (by decide), by decide⟩
  refine ⟨by decide, ⟨suboptWitnessWalk, hwalk, by decide, by decide, by decide⟩, ?_⟩
  rintro n ⟨_, hmin⟩ hcontra
  have h16 : n ≤ 16 :=
    hmin 16 ⟨suboptWitnessWalk, hwalk, by decide, by decide, by decide⟩
  rw [hcontra] at h16
  simp at h16

/-- C4 counterexample: on the concrete 7 × 7 dup grid the end (6,6) is
unreachable from (4,2); a_star terminates with NotFound but expands node
(0,6) twice. -/
theorem c4_counterexample :
    ¬ Reachable 7 dupColors (4, 2) (6, 6) ∧
    (a_star dupNbrs (4, 2) (6, 6) dupColors noEv noFlick 200).map
        (fun r => (r.1, r.2.2.log.count ((0 : Nat), (6 : Nat)))) = some (false, 2) := by
  constructor
  · exact not_reachable_of_closed 7 dupColors dupComponent (4, 2) (6, 6)
      (by decide) (by decide) (by decide)
  · decide

/-- C2 counterexample: on the barrier-free 4 × 4 grid with start (0,0) and end
(3,1), dijkstra and a_star with a zero heuristic expand the nodes in different
orders (they first differ at the eighth expansion), so dijkstra is not the
A* stepper specialized to h = 0 with insertion-order tie-breaking. -/
theorem c2_counterexample :
    (dijkstra tieNbrs (0, 0) (3, 1) tieColors noEv noFlick 200).map
        (fun r => r.2.2.log) =
      some [(0,0),(1,0),(0,1),(2,0),(1,1),(0,2),(3,0),(1,2),(0,3),(2,1),(3,1)] ∧
    (a_star_zero tieNbrs (0, 0) (3, 1) tieColors noEv noFlick 200).map
        (fun r => r.2.2.log) =
      some [(0,0),(1,0),(0,1),(2,0),(1,1),(0,2),(3,0),(2,1),(1,2),(0,3),(3,1)] ∧
    ([(0,0),(1,0),(0,1),(2,0),(1,1),(0,2),(3,0),(1,2),(0,3),(2,1),(3,1)] : List Pos) ≠
      [(0,0),(1,0),(0,1),(2,0),(1,1),(0,2),(3,0),(2,1),(1,2),(0,3),(3,1)] := by
  refine ⟨by decide, by decide, by decide⟩

/-! C2 amended: dijkstra's relaxation is a_star's with h = 0. -/

/-- C2 amended: per expansion, dijkstra performs exactly the relaxations that
a_star with a zero heuristic performs from the same node: abort behavior,
cost updates (priority is raw path cost) and predecessor updates coincide.
Only the frontier bookkeeping differs: dijkstra pushes bare (cost, node)
pairs without an insertion counter, re-pushes on improvement without a
frontier-membership check, and leaves equal-cost ties to the heap layout —
so the overall expansion order can differ from A* with h = 0. -/
theorem c2_dijkstra_relax_is_zero_h_a_star (endP current : Pos) (nbs : List Pos)
    (dst : DState) (ast : AState) (hflags : dst.flags = ast.flags)
    (hdist : dst.dist = ast.g_score) (hcf : dst.came_from = ast.came_from) :
    (dijkstra_relax current dst nbs).1 =
      (a_star_relax (fun _ _ => 0) endP current ast nbs).1 ∧
    (dijkstra_relax current dst nbs).2.dist =
      (a_star_relax (fun _ _ => 0) endP current ast nbs).2.g_score ∧
    (dijkstra_relax current dst nbs).2.came_from =
      (a_star_relax (fun _ _ => 0) endP current ast nbs).2.came_from := by
  induction nbs generalizing dst ast with
  | nil =>
    refine ⟨by trivial, ?_, ?_⟩
    · exact hdist
    · exact hcf
  | cons nb rest ih =>
    unfold dijkstra_relax a_star_relax
    rw [hflags, hdist, hcf]
    by_cases hstop : ast.flags.stop = true
    · simp only [hstop, if_true]
      refine ⟨by trivial, ?_, ?_⟩
      · exact hdist
      · exact hcf
    · simp only [Bool.not_eq_true] at hstop
      simp only [hstop, Bool.false_eq_true, if_false]
      cases hgc : ast.g_score current with
      | none => exact ih dst ast hflags hdist hcf
      | some gc =>
        dsimp only
        by_cases himp : ltOpt (gc + 1) (ast.g_score nb) = true
        · simp only [himp, if_true]
          by_cases hhash : ast.open_set_hash nb = true
          · simp only [hhash, if_true]
            exact ih _ _ rfl rfl rfl
          · simp only [Bool.not_eq_true] at hhash
            simp only [hhash, Bool.false_eq_true, if_false]
            exact ih _ _ rfl rfl rfl
        · simp only [Bool.not_eq_true] at himp
          simp only [himp, Bool.false_eq_true, if_false]
          exact ih dst ast hflags hdist hcf

/-- C2 amended witness: the correspondence at a concrete one-step state on
the 4 × 4 tie grid. -/
theorem c2_dijkstra_relax_is_zero_h_a_star_witness :
    ((dijkstra_relax (0, 0)
        ⟨[], fun q => if q = ((0:Nat), (0:Nat)) then some 0 else none, fun _ => none,
          tieColors, ⟨false, false, false⟩, 0, []⟩ (tieNbrs (0, 0))).1 =
      (a_star_relax (fun _ _ => 0) (3, 1) (0, 0)
        ⟨[], 0, fun _ => none, fun q => if q = ((0:Nat), (0:Nat)) then some 0 else none,
          fun _ => none, fun _ => false, tieColors, ⟨false, false, false⟩, 0, []⟩
        (tieNbrs (0, 0))).1 ∧
      (dijkstra_relax (0, 0)
        ⟨[], fun q => if q = ((0:Nat), (0:Nat)) then some 0 else none, fun _ => none,
          tieColors, ⟨false, false, false⟩, 0, []⟩ (tieNbrs (0, 0))).2.dist =
      (a_star_relax (fun _ _ => 0) (3, 1) (0, 0)
        ⟨[], 0, fun _ => none, fun q => if q = ((0:Nat), (0:Nat)) then some 0 else none,
          fun _ => none, fun _ => false, tieColors, ⟨false, false, false⟩, 0, []⟩
        (tieNbrs (0, 0))).2.g_score ∧
      (dijkstra_relax (0, 0)
        ⟨[], fun q => if q = ((0:Nat), (0:Nat)) then some 0 else none, fun _ => none,
          tieColors, ⟨false, false, false⟩, 0, []⟩ (tieNbrs (0, 0))).2.came_from =
      (a_star_relax (fun _ _ => 0) (3, 1) (0, 0)
        ⟨[], 0, fun _ => none, fun q => if q = ((0:Nat), (0:Nat)) then some 0 else none,
          fun _ => none, fun _ => false, tieColors, ⟨false, false, false⟩, 0, []⟩
        (tieNbrs (0, 0))).2.came_from) :=
  c2_dijkstra_relax_is_zero_h_a_star (3, 1) (0, 0) (tieNbrs (0, 0)) _ _ rfl rfl rfl

/-! C5: cooperative stop. -/

/-- C5: whenever the poll before an expansion raises the stop signal, each of
the four algorithm loops returns immediately with outcome Stopped (result
False with stopRequested still set): the returned state is exactly the polled
state — the expansion log is unchanged (zero further expansions), and the
run's frontier and predecessor structures are local state that the caller
never receives through the Found/NotFound/Stopped result. -/
theorem c5_stop_responsive :
    (∀ (heur : Pos → Pos → Nat) (nbrs : Pos → List Pos) (startP endP : Pos)
      (sched : Nat → List Ev) (flick : Nat → Bool) (fuel : Nat) (st : AState),
      st.heap ≠ [] → (process_events (sched st.pc) st.flags).stop = true →
      a_star_loop heur nbrs startP endP sched flick (fuel + 1) st =
        some (false, [],
          { st with flags := process_events (sched st.pc) st.flags, pc := st.pc + 1 })) ∧
    (∀ (nbrs : Pos → List Pos) (startP endP : Pos) (sched : Nat → List Ev)
      (flick : Nat → Bool) (fuel : Nat) (st : DState),
      st.heap ≠ [] → (process_events (sched st.pc) st.flags).stop = true →
      dijkstra_loop nbrs startP endP sched flick (fuel + 1) st =
        some (false, [],
          { st with flags := process_events (sched st.pc) st.flags, pc := st.pc + 1 })) ∧
    (∀ (nbrs : Pos → List Pos) (startP endP : Pos) (sched : Nat → List Ev)
      (flick : Nat → Bool) (fuel : Nat) (st : QState),
      st.queue ≠ [] → (process_events (sched st.pc) st.flags).stop = true →
      bfs_loop nbrs startP endP sched flick (fuel + 1) st =
        some (false, [],
          { st with flags := process_events (sched st.pc) st.flags, pc := st.pc + 1 })) ∧
    (∀ (nbrs : Pos → List Pos) (startP endP : Pos) (sched : Nat → List Ev)
      (flick : Nat → Bool) (fuel : Nat) (st : QState),
      st.queue ≠ [] → (process_events (sched st.pc) st.flags).stop = true →
      dfs_loop nbrs startP endP sched flick (fuel + 1) st =
        some (false, [],
          { st with flags := process_events (sched st.pc) st.flags, pc := st.pc + 1 })) := by
  refine ⟨?_, ?_, ?_, ?_⟩
  · intro heur nbrs startP endP sched flick fuel st hheap hstop
    unfold a_star_loop
    rw [if_neg hheap]
    simp only [hstop, if_true]
  · intro nbrs startP endP sched flick fuel st hheap hstop
    unfold dijkstra_loop
    rw [if_neg hheap]
    simp only [hstop, if_true]
  · intro nbrs startP endP sched flick fuel st hqueue hstop
    unfold bfs_loop
    obtain ⟨q0, qrest, hq⟩ := List.exists_cons_of_ne_nil hqueue
    rw [hq]
    simp only [hstop, if_true]
  · intro nbrs startP endP sched flick fuel st hqueue hstop
    unfold dfs_loop
    obtain ⟨q0, qrest, hq⟩ := List.exists_cons_of_ne_nil hqueue
    rw [hq]
    simp only [hstop, if_true]

/-- C5 witness: a pending ESC at the first poll stops a concrete a_star,
dijkstra, bfs and dfs run immediately. -/
theorem c5_stop_responsive_witness :
    (a_star_loop manh tieNbrs (0, 0) (3, 1) (fun _ => [Ev.keyEsc]) noFlick 9
        ⟨[(0, 0, (0, 0))], 0, fun _ => none,
          fun q => if q = ((0:Nat), (0:Nat)) then some 0 else none,
          fun q => if q = ((0:Nat), (0:Nat)) then some 4 else none,
          fun q => decide (q = ((0:Nat), (0:Nat))), tieColors,
          ⟨false, false, false⟩, 0, []⟩ =
      some (false, [],
        { (⟨[(0, 0, (0, 0))], 0, fun _ => none,
            fun q => if q = ((0:Nat), (0:Nat)) then some 0 else none,
            fun q => if q = ((0:Nat), (0:Nat)) then some 4 else none,
            fun q => decide (q = ((0:Nat), (0:Nat))), tieColors,
            ⟨false, false, false⟩, 0, []⟩ : AState) with
          flags := process_events ((fun _ => [Ev.keyEsc]) 0) (⟨false, false, false⟩ : Flags),
          pc := 1 })) := by
  have h := c5_stop_responsive.1 manh tieNbrs (0, 0) (3, 1) (fun _ => [Ev.keyEsc]) noFlick 8
    ⟨[(0, 0, (0, 0))], 0, fun _ => none,
      fun q => if q = ((0:Nat), (0:Nat)) then some 0 else none,
      fun q => if q = ((0:Nat), (0:Nat)) then some 4 else none,
      fun q => decide (q = ((0:Nat), (0:Nat))), tieColors,
      ⟨false, false, false⟩, 0, []⟩ (by simp) (by decide)
  exact h

/-! Helper lemmas about List.getD, List.set and counts, used for the
CPython-heapq verification. -/

theorem getD_set_self_of_lt {α : Type} (l : List α) (i : Nat) (v d : α)
    (h : i < l.length) : (l.set i v).getD i d = v := by
  rw [List.getD_eq_getElem?_getD, List.getElem?_set_self h]
  rfl

theorem getD_set_ne {α : Type} (l : List α) (i j : Nat) (v d : α) (h : i ≠ j) :
    (l.set i v).getD j d = l.getD j d := by
  rw [List.getD_eq_getElem?_getD, List.getElem?_set_ne h, ← List.getD_eq_getElem?_getD]

theorem getD_indep {α : Type} (l : List α) (i : Nat) (h : i < l.length) (d e : α) :
    l.getD i d = l.getD i e := by
  rw [List.getD_eq_getElem?_getD, List.getD_eq_getElem?_getD, List.getElem?_eq_getElem h]
  rfl

theorem getD_append_left {α : Type} (l l2 : List α) (i : Nat) (d : α) (h : i < l.length) :
    (l ++ l2).getD i d = l.getD i d := by
  rw [List.getD_eq_getElem?_getD, List.getD_eq_getElem?_getD, List.getElem?_append_left h]

theorem getD_of_getElem? {α : Type} {l : List α} {i : Nat} {x : α} (d : α)
    (h : l[i]? = some x) : l.getD i d = x := by
  rw [List.getD_eq_getElem?_getD, h]
  rfl

theorem count_set_add {α : Type} [DecidableEq α] (d : α) :
    ∀ (l : List α) (i : Nat), i < l.length → ∀ (v a : α),
    (l.set i v).count a + (if l.getD i d == a then 1 else 0) =
      l.count a + (if v == a then 1 else 0) := by
  intro l
  induction l with
  | nil =>
    intro i hi
    simp at hi
  | cons x t ih =>
    intro i hi v a
    cases i with
    | zero =>
      simp only [List.set_cons_zero, List.count_cons, List.getD_cons_zero]
      split_ifs <;> omega
    | succ n =>
      simp only [List.set_cons_succ, List.count_cons, List.getD_cons_succ]
      have hn : n < t.length := by simpa using Nat.lt_of_succ_lt_succ hi
      have := ih n hn v a
      split_ifs at this ⊢ <;> omega

theorem set_swap_perm {α : Type} [DecidableEq α] (l : List α) (i j : Nat) (v : α)
    (hi : i < l.length) (hj : j < l.length) (hij : i ≠ j) :
    List.Perm ((l.set i (l.getD j v)).set j v) (l.set i v) := by
  rw [List.perm_iff_count]
  intro a
  have hjlen : j < (l.set i (l.getD j v)).length := by simpa using hj
  have h1 := count_set_add v (l.set i (l.getD j v)) j hjlen v a
  have h2 := count_set_add v l i hi (l.getD j v) a
  have h3 := count_set_add v l i hi v a
  rw [getD_set_ne _ _ _ _ _ hij] at h1
  split_ifs at h1 h2 h3 <;> omega

theorem set_getD_self {α : Type} (l : List α) (i : Nat) (d : α) (h : l.getD i d = d) :
    l.set i d = l := by
  apply List.ext_getElem?
  intro n
  by_cases hn : n = i
  · subst hn
    by_cases hlen : n < l.length
    · rw [List.getElem?_set_self hlen, List.getElem?_eq_getElem hlen]
      have := getD_of_getElem? d (List.getElem?_eq_getElem hlen)
      rw [h] at this
      rw [← this]
    · rw [List.set_eq_of_length_le (by omega)]
  · rw [List.getElem?_set_ne (fun hcontra => hn hcontra.symm)]

/-! Multiset behavior of the heapq operations. -/

theorem siftdownFuel_perm {α : Type} [DecidableEq α] (lt : α → α → Bool) (new : α) :
    ∀ (fuel : Nat) (l : List α) (pos : Nat), pos < l.length →
      List.Perm (siftdownFuel lt new 0 fuel l pos) (l.set pos new) := by
  intro fuel
  induction fuel with
  | zero =>
    intro l pos _
    exact List.Perm.refl _
  | succ f ih =>
    intro l pos hpos
    unfold siftdownFuel
    by_cases h0 : 0 < pos
    · rw [if_pos h0]
      dsimp only
      cases hp : l[(pos - 1) / 2]? with
      | none => exact List.Perm.refl _
      | some parent =>
        dsimp only
        by_cases hlt : lt new parent = true
        · rw [if_pos hlt]
          have hrec := ih (l.set pos parent) ((pos - 1) / 2)
            (by rw [List.length_set]; omega)
          refine hrec.trans ?_
          have hparent : parent = l.getD ((pos - 1) / 2) new := (getD_of_getElem? new hp).symm
          rw [hparent]
          exact set_swap_perm l pos ((pos - 1) / 2) new hpos (by omega) (by omega)
        · rw [if_neg hlt]
    · rw [if_neg h0]

theorem siftupFuel_perm {α : Type} [DecidableEq α] (lt : α → α → Bool) (new : α) :
    ∀ (fuel : Nat) (l : List α) (pos : Nat), pos < l.length →
      List.Perm (siftupFuel lt new 0 fuel l pos) (l.set pos new) := by
  intro fuel
  induction fuel with
  | zero =>
    intro l pos hpos
    unfold siftupFuel siftdownAux
    have h := siftdownFuel_perm lt new pos (l.set pos new) pos (by rw [List.length_set]; exact hpos)
    rw [List.set_set] at h
    exact h
  | succ f ih =>
    intro l pos hpos
    unfold siftupFuel
    by_cases hc : 2 * pos + 1 < l.length
    · rw [if_pos hc]
      dsimp only
      by_cases hr : 2 * pos + 1 + 1 < l.length ∧
          (lt (l.getD (2 * pos + 1) new) (l.getD (2 * pos + 1 + 1) new)) = false
      · rw [if_pos hr]
        have hrec := ih (l.set pos (l.getD (2 * pos + 1 + 1) new)) (2 * pos + 1 + 1)
          (by rw [List.length_set]; exact hr.1)
        refine hrec.trans ?_
        exact set_swap_perm l pos (2 * pos + 1 + 1) new hpos hr.1 (by omega)
      · rw [if_neg hr]
        have hrec := ih (l.set pos (l.getD (2 * pos + 1) new)) (2 * pos + 1)
          (by rw [List.length_set]; exact hc)
        refine hrec.trans ?_
        exact set_swap_perm l pos (2 * pos + 1) new hpos hc (by omega)
    · rw [if_neg hc]
      unfold siftdownAux
      have h := siftdownFuel_perm lt new pos (l.set pos new) pos (by rw [List.length_set]; exact hpos)
      rw [List.set_set] at h
      exact h

theorem heappush_perm {α : Type} [DecidableEq α] (lt : α → α → Bool) (l : List α) (x : α) :
    List.Perm (heappush lt l x) (x :: l) := by
  unfold heappush siftdownAux
  have h1 := siftdownFuel_perm lt x l.length (l ++ [x]) l.length (by simp)
  have h2 : (l ++ [x]).set l.length x = l ++ [x] := by
    apply set_getD_self
    rw [List.getD_eq_getElem?_getD, List.getElem?_append_right (Nat.le_refl _)]
    simp
  rw [h2] at h1
  exact h1.trans (List.perm_append_singleton x l)

theorem heappop_spec {α : Type} [DecidableEq α] (lt : α → α → Bool) (l : List α)
    (hl : l ≠ []) :
    ∃ l2, heappop lt l = some (l.head hl, l2) ∧ List.Perm l (l.head hl :: l2) := by
  match l, hl with
  | [a], _ =>
    exact ⟨[], rfl, List.Perm.refl _⟩
  | a :: b :: u, _ =>
    have hlast : (a :: b :: u).getLast? = some ((b :: u).getLast (by simp)) := by
      rw [List.getLast?_cons_cons]
      exact List.getLast?_eq_getLast (b :: u) (by simp)
    have hdrop : (a :: b :: u).dropLast = a :: (b :: u).dropLast := by
      simp
    unfold heappop
    rw [hlast, hdrop]
    refine ⟨_, rfl, ?_⟩
    have hperm := siftupFuel_perm lt ((b :: u).getLast (by simp))
      ((a :: (b :: u).dropLast).set 0 ((b :: u).getLast (by simp))).length
      ((a :: (b :: u).dropLast).set 0 ((b :: u).getLast (by simp))) 0 (by simp)
    rw [List.set_set] at hperm
    have hsplit : b :: u = (b :: u).dropLast ++ [(b :: u).getLast (by simp)] :=
      (List.dropLast_append_getLast (by simp)).symm
    refine List.Perm.cons a ?_
    have hstep1 : List.Perm (b :: u) ((b :: u).getLast (by simp) :: (b :: u).dropLast) := by
      conv_lhs => rw [hsplit]
      exact List.perm_append_singleton _ _
    refine hstep1.trans ?_
    have hset0 : (a :: (b :: u).dropLast).set 0 ((b :: u).getLast (by simp)) =
        (b :: u).getLast (by simp) :: (b :: u).dropLast := rfl
    rw [hset0] at hperm
    exact (by
      unfold siftupAux
      exact hperm.symm)

/-! Preservation of the binary-heap shape by the heapq operations.
The comparison lt is assumed irreflexive, transitive, and with a transitive
complement (a strict weak order), which ltA and ltD satisfy. -/

theorem lt_asym {α : Type} (lt : α → α → Bool) (Hirr : ∀ a, lt a a = false)
    (Htrans : ∀ a b c, lt a b = true → lt b c = true → lt a c = true)
    (a b : α) (h : lt a b = true) : lt b a = false := by
  cases hba : lt b a with
  | false => rfl
  | true =>
    have := Htrans a b a h hba
    rw [Hirr] at this
    exact absurd this (by simp)

theorem lt_cross {α : Type} (lt : α → α → Bool)
    (Htrans : ∀ a b c, lt a b = true → lt b c = true → lt a c = true)
    (a n p : α) (hap : lt a p = false) (hnp : lt n p = true) : lt a n = false := by
  cases han : lt a n with
  | false => rfl
  | true =>
    have := Htrans a n p han hnp
    rw [hap] at this
    exact absurd this (by simp)

theorem siftdownFuel_isHeap {α : Type} (lt : α → α → Bool)
    (Hirr : ∀ a, lt a a = false)
    (Htrans : ∀ a b c, lt a b = true → lt b c = true → lt a c = true)
    (Hneg : ∀ a b c, lt a b = false → lt b c = false → lt a c = false)
    (newitem : α) :
    ∀ (fuel : Nat) (l : List α) (pos : Nat), pos < l.length → pos ≤ fuel →
      (∀ i d, 0 < i → i < l.length → i ≠ pos →
        lt (l.getD i d) (l.getD ((i - 1) / 2) d) = false) →
      (∀ i d, 0 < i → i < l.length → (i - 1) / 2 = pos →
        lt (l.getD i d) newitem = false) →
      (∀ i d, 0 < i → i < l.length → (i - 1) / 2 = pos → 0 < pos →
        lt (l.getD i d) (l.getD ((pos - 1) / 2) d) = false) →
      IsHeap lt (siftdownFuel lt newitem 0 fuel l pos) := by
  intro fuel
  induction fuel with
  | zero =>
    intro l pos hpos hfuel ha hb _
    have hpos0 : pos = 0 := Nat.le_zero.mp hfuel
    subst hpos0
    unfold siftdownFuel
    intro i d h1 h2
    rw [List.length_set] at h2
    rw [getD_set_ne _ _ _ _ _ (by omega)]
    by_cases hpi : (i - 1) / 2 = 0
    · rw [hpi, getD_set_self_of_lt _ _ _ _ hpos]
      exact hb i d h1 h2 hpi
    · rw [getD_set_ne _ _ _ _ _ (by omega)]
      exact ha i d h1 h2 (by omega)
  | succ f ih =>
    intro l pos hpos hfuel ha hb hc
    unfold siftdownFuel
    by_cases h0 : 0 < pos
    · rw [if_pos h0]
      dsimp only
      cases hp : l[(pos - 1) / 2]? with
      | none =>
        have hlt2 : (pos - 1) / 2 < l.length := by omega
        rw [List.getElem?_eq_getElem hlt2] at hp
        exact absurd hp (by simp)
      | some parent =>
        dsimp only
        have hppos : (pos - 1) / 2 < pos := by omega
        have hpval : ∀ d, l.getD ((pos - 1) / 2) d = parent := fun d => getD_of_getElem? d hp
        by_cases hlt : lt newitem parent = true
        · rw [if_pos hlt]
          apply ih (l.set pos parent) ((pos - 1) / 2)
            (by rw [List.length_set]; omega) (by omega)
          · -- ha for the swapped list
            intro i d h1 h2 hi
            rw [List.length_set] at h2
            by_cases hip : i = pos
            · rw [hip,
                getD_set_self_of_lt _ _ _ _ hpos,
                getD_set_ne _ _ _ _ _ (by omega), hpval]
              exact Hirr parent
            · rw [getD_set_ne _ _ _ _ _ (fun h => hip h.symm)]
              by_cases hpar : (i - 1) / 2 = pos
              · rw [hpar, getD_set_self_of_lt _ _ _ _ hpos]
                have := hc i d h1 h2 hpar h0
                rw [hpval] at this
                exact this
              · rw [getD_set_ne _ _ _ _ _ (fun h => hpar h.symm)]
                exact ha i d h1 h2 hip
          · -- hb for the swapped list: children of the parent position
            intro i d h1 h2 hpar
            rw [List.length_set] at h2
            by_cases hip : i = pos
            · rw [hip,
                getD_set_self_of_lt _ _ _ _ hpos]
              exact lt_asym lt Hirr Htrans newitem parent hlt
            · rw [getD_set_ne _ _ _ _ _ (fun h => hip h.symm)]
              have h3 := ha i d h1 h2 hip
              rw [hpar, hpval] at h3
              exact lt_cross lt Htrans _ _ _ h3 hlt
          · -- hc for the swapped list: children of the parent vs grandparent
            intro i d h1 h2 hpar hgp
            rw [List.length_set] at h2
            have hgpar : ((pos - 1) / 2 - 1) / 2 < pos := by omega
            by_cases hip : i = pos
            · rw [hip,
                getD_set_self_of_lt _ _ _ _ hpos,
                getD_set_ne _ _ _ _ _ (by omega)]
              have := ha ((pos - 1) / 2) d hgp (by omega) (by omega)
              rw [hpval] at this
              exact this
            · rw [getD_set_ne _ _ _ _ _ (fun h => hip h.symm),
                getD_set_ne _ _ _ _ _ (by omega)]
              have h3 := ha i d h1 h2 hip
              rw [hpar, hpval] at h3
              have h4 := ha ((pos - 1) / 2) d hgp (by omega) (by omega)
              rw [hpval] at h4
              exact Hneg _ _ _ h3 h4
        · rw [if_neg hlt]
          intro i d h1 h2
          rw [List.length_set] at h2
          by_cases hip : i = pos
          · subst hip
            rw [getD_set_self_of_lt _ _ _ _ hpos,
              getD_set_ne _ _ _ _ _ (by omega), hpval]
            simp only [Bool.not_eq_true] at hlt
            exact hlt
          · rw [getD_set_ne _ _ _ _ _ (fun h => hip h.symm)]
            by_cases hpar : (i - 1) / 2 = pos
            · rw [hpar, getD_set_self_of_lt _ _ _ _ hpos]
              exact hb i d h1 h2 hpar
            · rw [getD_set_ne _ _ _ _ _ (fun h => hpar h.symm)]
              exact ha i d h1 h2 hip
    · rw [if_neg h0]
      have hpos0 : pos = 0 := by omega
      subst hpos0
      intro i d h1 h2
      rw [List.length_set] at h2
      rw [getD_set_ne _ _ _ _ _ (by omega)]
      by_cases hpi : (i - 1) / 2 = 0
      · rw [hpi, getD_set_self_of_lt _ _ _ _ hpos]
        exact hb i d h1 h2 hpi
      · rw [getD_set_ne _ _ _ _ _ (by omega)]
        exact ha i d h1 h2 (by omega)

theorem siftupFuel_isHeap {α : Type} (lt : α → α → Bool)
    (Hirr : ∀ a, lt a a = false)
    (Htrans : ∀ a b c, lt a b = true → lt b c = true → lt a c = true)
    (Hneg : ∀ a b c, lt a b = false → lt b c = false → lt a c = false)
    (newitem : α) :
    ∀ (fuel : Nat) (l : List α) (pos : Nat), pos < l.length → l.length ≤ fuel + pos →
      (∀ i d, 0 < i → i < l.length → i ≠ pos → (i - 1) / 2 ≠ pos →
        lt (l.getD i d) (l.getD ((i - 1) / 2) d) = false) →
      (∀ i d, 0 < i → i < l.length → (i - 1) / 2 = pos → 0 < pos →
        lt (l.getD i d) (l.getD ((pos - 1) / 2) d) = false) →
      IsHeap lt (siftupFuel lt newitem 0 fuel l pos) := by
  intro fuel
  induction fuel with
  | zero =>
    intro l pos hpos hfuel
    omega
  | succ f ih =>
    intro l pos hpos hfuel ha2 hd2
    unfold siftupFuel
    by_cases hcld : 2 * pos + 1 < l.length
    · rw [if_pos hcld]
      dsimp only
      by_cases hr : 2 * pos + 1 + 1 < l.length ∧
          (lt (l.getD (2 * pos + 1) newitem) (l.getD (2 * pos + 1 + 1) newitem)) = false
      · rw [if_pos hr]
        apply ih (l.set pos (l.getD (2 * pos + 1 + 1) newitem)) (2 * pos + 1 + 1)
          (by rw [List.length_set]; exact hr.1) (by rw [List.length_set]; omega)
        · intro i d h1 h2 hicp hpicp
          rw [List.length_set] at h2
          by_cases hip : i = pos
          · rw [hip, getD_set_self_of_lt _ _ _ _ hpos,
              getD_set_ne _ _ _ _ _ (by omega)]
            have h5 := hd2 (2 * pos + 1 + 1) newitem (by omega) hr.1 (by omega)
              (by rw [← hip]; exact h1)
            rw [getD_indep l ((pos - 1) / 2) (by omega) d newitem]
            exact h5
          · rw [getD_set_ne _ _ _ _ _ (fun h => hip h.symm)]
            by_cases hpip : (i - 1) / 2 = pos
            · rw [hpip, getD_set_self_of_lt _ _ _ _ hpos]
              have hi1 : i = 2 * pos + 1 := by omega
              rw [hi1, getD_indep l (2 * pos + 1) hcld d newitem]
              exact hr.2
            · rw [getD_set_ne _ _ _ _ _ (fun h => hpip h.symm)]
              exact ha2 i d h1 h2 hip hpip
        · intro i d h1 h2 hpar hcp0
          rw [List.length_set] at h2
          have hcpp : (2 * pos + 1 + 1 - 1) / 2 = pos := by omega
          rw [hcpp, getD_set_self_of_lt _ _ _ _ hpos,
            getD_set_ne _ _ _ _ _ (by omega)]
          have h5 := ha2 i d h1 h2 (by omega) (by omega)
          rw [hpar, getD_indep l (2 * pos + 1 + 1) hr.1 d newitem] at h5
          exact h5
      · rw [if_neg hr]
        apply ih (l.set pos (l.getD (2 * pos + 1) newitem)) (2 * pos + 1)
          (by rw [List.length_set]; exact hcld) (by rw [List.length_set]; omega)
        · intro i d h1 h2 hicp hpicp
          rw [List.length_set] at h2
          by_cases hip : i = pos
          · rw [hip, getD_set_self_of_lt _ _ _ _ hpos,
              getD_set_ne _ _ _ _ _ (by omega)]
            have h5 := hd2 (2 * pos + 1) newitem (by omega) hcld (by omega)
              (by rw [← hip]; exact h1)
            rw [getD_indep l ((pos - 1) / 2) (by omega) d newitem]
            exact h5
          · rw [getD_set_ne _ _ _ _ _ (fun h => hip h.symm)]
            by_cases hpip : (i - 1) / 2 = pos
            · rw [hpip, getD_set_self_of_lt _ _ _ _ hpos]
              have hi2 : i = 2 * pos + 1 + 1 := by omega
              have hlen2 : 2 * pos + 1 + 1 < l.length := by omega
              have hB : lt (l.getD (2 * pos + 1) newitem)
                  (l.getD (2 * pos + 1 + 1) newitem) = true := by
                cases hB0 : lt (l.getD (2 * pos + 1) newitem)
                    (l.getD (2 * pos + 1 + 1) newitem) with
                | true => rfl
                | false => exact absurd ⟨hlen2, hB0⟩ hr
              rw [hi2, getD_indep l (2 * pos + 1 + 1) hlen2 d newitem]
              exact lt_asym lt Hirr Htrans _ _ hB
            · rw [getD_set_ne _ _ _ _ _ (fun h => hpip h.symm)]
              exact ha2 i d h1 h2 hip hpip
        · intro i d h1 h2 hpar hcp0
          rw [List.length_set] at h2
          have hcpp : (2 * pos + 1 - 1) / 2 = pos := by omega
          rw [hcpp, getD_set_self_of_lt _ _ _ _ hpos,
            getD_set_ne _ _ _ _ _ (by omega)]
          have h5 := ha2 i d h1 h2 (by omega) (by omega)
          rw [hpar, getD_indep l (2 * pos + 1) hcld d newitem] at h5
          exact h5
    · rw [if_neg hcld]
      unfold siftdownAux
      apply siftdownFuel_isHeap lt Hirr Htrans Hneg newitem pos (l.set pos newitem) pos
        (by rw [List.length_set]; exact hpos) (Nat.le_refl pos)
      · intro i d h1 h2 hip
        rw [List.length_set] at h2
        by_cases hpip : (i - 1) / 2 = pos
        · exact absurd h2 (by omega)
        · rw [getD_set_ne _ _ _ _ _ (fun h => hip h.symm),
            getD_set_ne _ _ _ _ _ (fun h => hpip h.symm)]
          exact ha2 i d h1 h2 hip hpip
      · intro i d h1 h2 hpar
        rw [List.length_set] at h2
        exact absurd h2 (by omega)
      · intro i d h1 h2 hpar _
        rw [List.length_set] at h2
        exact absurd h2 (by omega)

theorem heappush_isHeap {α : Type} (lt : α → α → Bool)
    (Hirr : ∀ a, lt a a = false)
    (Htrans : ∀ a b c, lt a b = true → lt b c = true → lt a c = true)
    (Hneg : ∀ a b c, lt a b = false → lt b c = false → lt a c = false)
    (l : List α) (x : α) (h : IsHeap lt l) : IsHeap lt (heappush lt l x) := by
  unfold heappush siftdownAux
  apply siftdownFuel_isHeap lt Hirr Htrans Hneg x l.length (l ++ [x]) l.length
    (by simp) (Nat.le_refl _)
  · intro i d h1 h2 hip
    rw [List.length_append] at h2
    have hi : i < l.length := by simp at h2; omega
    rw [getD_append_left _ _ _ _ hi, getD_append_left _ _ _ _ (by omega)]
    exact h i d h1 hi
  · intro i d h1 h2 hpar
    rw [List.length_append] at h2
    exact absurd h2 (by simp; omega)
  · intro i d h1 h2 hpar _
    rw [List.length_append] at h2
    exact absurd h2 (by simp; omega)

theorem getD_dropLast {α : Type} (l : List α) (i : Nat) (d : α)
    (h : i < l.length - 1) : l.dropLast.getD i d = l.getD i d := by
  have hlen : i < l.dropLast.length := by rw [List.length_dropLast]; omega
  rw [List.getD_eq_getElem l d (by omega), List.getD_eq_getElem l.dropLast d hlen,
    List.getElem_dropLast]

theorem heappop_isHeap {α : Type} (lt : α → α → Bool)
    (Hirr : ∀ a, lt a a = false)
    (Htrans : ∀ a b c, lt a b = true → lt b c = true → lt a c = true)
    (Hneg : ∀ a b c, lt a b = false → lt b c = false → lt a c = false)
    (l : List α) (x : α) (l2 : List α)
    (h : IsHeap lt l) (hp : heappop lt l = some (x, l2)) : IsHeap lt l2 := by
  match l, h, hp with
  | [], _, hp => exact Option.noConfusion hp
  | [a], _, hp =>
    have h2 : l2 = [] := by
      have h4 : some (a, ([] : List α)) = some (x, l2) := hp
      simp only [Option.some.injEq, Prod.mk.injEq] at h4
      exact h4.2.symm
    rw [h2]
    intro i d h1 hlen
    simp at hlen
  | a :: b :: u, h, hp =>
    have hlast : (a :: b :: u).getLast? = some ((b :: u).getLast (by simp)) := by
      rw [List.getLast?_cons_cons]
      exact List.getLast?_eq_getLast (b :: u) (by simp)
    have hdrop : (a :: b :: u).dropLast = a :: (b :: u).dropLast := by
      simp
    unfold heappop at hp
    rw [hlast, hdrop] at hp
    have hl2 : l2 = siftupAux lt ((b :: u).getLast (by simp)) 0
        ((a :: (b :: u).dropLast).set 0 ((b :: u).getLast (by simp))) 0 := by
      simp only [Option.some.injEq, Prod.mk.injEq] at hp
      exact hp.2.symm
    rw [hl2]
    unfold siftupAux
    apply siftupFuel_isHeap lt Hirr Htrans Hneg _ _ _ 0 (by simp) (by simp)
    · intro i d h1 h2 _ hpi0
      rw [List.length_set] at h2
      have hdlen : (a :: (b :: u).dropLast).length = (a :: b :: u).length - 1 := by
        simp
      rw [hdlen] at h2
      rw [getD_set_ne _ _ _ _ _ (by omega), getD_set_ne _ _ _ _ _ (by omega),
        ← hdrop, getD_dropLast _ _ _ (by omega), getD_dropLast _ _ _ (by omega)]
      exact h i d h1 (by simp at h2 ⊢; omega)
    · intro i d _ _ _ hpos0
      exact absurd hpos0 (by simp)

theorem isHeap_getD_zero {α : Type} (lt : α → α → Bool)
    (Hirr : ∀ a, lt a a = false)
    (Hneg : ∀ a b c, lt a b = false → lt b c = false → lt a c = false)
    (l : List α) (h : IsHeap lt l) :
    ∀ i d, i < l.length → lt (l.getD i d) (l.getD 0 d) = false := by
  intro i
  induction i using Nat.strong_induction_on with
  | _ i ih =>
    intro d hi
    rcases Nat.eq_zero_or_pos i with h0 | h0
    · rw [h0]
      exact Hirr _
    · have h1 := h i d h0 hi
      have h2 := ih ((i - 1) / 2) (by omega) d (by omega)
      exact Hneg _ _ _ h1 h2

theorem heappop_min {α : Type} [DecidableEq α] (lt : α → α → Bool)
    (Hirr : ∀ a, lt a a = false)
    (Hneg : ∀ a b c, lt a b = false → lt b c = false → lt a c = false)
    (l : List α) (x : α) (l2 : List α)
    (h : IsHeap lt l) (hp : heappop lt l = some (x, l2)) :
    (∀ y ∈ l, lt y x = false) ∧ List.Perm l (x :: l2) := by
  have hne : l ≠ [] := by
    intro he
    rw [he] at hp
    exact Option.noConfusion hp
  obtain ⟨l2', hpop, hperm⟩ := heappop_spec lt l hne
  rw [hp] at hpop
  simp only [Option.some.injEq, Prod.mk.injEq] at hpop
  have hx : x = l.head hne := hpop.1
  have hl2 : l2 = l2' := hpop.2
  constructor
  · intro y hy
    obtain ⟨i, hi, hyi⟩ := List.mem_iff_getElem.mp hy
    have hroot := isHeap_getD_zero lt Hirr Hneg l h i y hi
    have hgy : l.getD i y = y := by
      rw [List.getD_eq_getElem l y hi, hyi]
    have hghead : l.getD 0 y = l.head hne := by
      match l, hne with
      | a :: t, _ => rfl
    rw [hgy, hghead, ← hx] at hroot
    exact hroot
  · rw [hl2, hx]
    exact hperm

/-! C3: the a_star frontier. ltA is a strict weak order, the invariant AInv
holds initially and is preserved by pops and relaxations, a pop returns the
(f, count)-lexicographically least entry, and an improving relaxation of a
node already in the frontier only rewrites the score maps. -/

theorem ltA_irr : ∀ a, ltA a a = false := by
  intro a
  unfold ltA
  rw [decide_eq_false_iff_not]
  omega

theorem ltA_trans : ∀ a b c, ltA a b = true → ltA b c = true → ltA a c = true := by
  intro a b c h1 h2
  unfold ltA at h1 h2 ⊢
  simp only [decide_eq_true_eq] at h1 h2 ⊢
  omega

theorem ltA_neg : ∀ a b c, ltA a b = false → ltA b c = false → ltA a c = false := by
  intro a b c h1 h2
  unfold ltA at h1 h2 ⊢
  simp only [decide_eq_false_iff_not] at h1 h2 ⊢
  omega

theorem a_star_init_AInv (heur : Pos → Pos → Nat) (startP endP : Pos)
    (colors0 : Pos → Color) : AInv (a_star_init heur startP endP colors0) := by
  refine ⟨?_, ?_, ?_⟩
  · intro i d h1 h2
    rw [show (a_star_init heur startP endP colors0).heap = [(0, 0, startP)] from rfl] at h2
    simp at h2
    exact absurd h1 (by omega)
  · intro e he
    rw [show (a_star_init heur startP endP colors0).heap = [(0, 0, startP)] from rfl] at he
    simp at he
    simp [he]
  · rw [show (a_star_init heur startP endP colors0).heap = [(0, 0, startP)] from rfl]
    exact List.pairwise_singleton _ _

theorem a_star_relax_inv (heur : Pos → Pos → Nat) (endP current : Pos) :
    ∀ (nbs : List Pos) (st : AState),
      IsHeap ltA st.heap → (∀ e ∈ st.heap, e.2.1 ≤ st.count) →
      st.heap.Pairwise (fun e1 e2 => e1.2.1 ≠ e2.2.1) →
      IsHeap ltA (a_star_relax heur endP current st nbs).2.heap ∧
      (∀ e ∈ (a_star_relax heur endP current st nbs).2.heap,
        e.2.1 ≤ (a_star_relax heur endP current st nbs).2.count) ∧
      (a_star_relax heur endP current st nbs).2.heap.Pairwise
        (fun e1 e2 => e1.2.1 ≠ e2.2.1) ∧
      st.count ≤ (a_star_relax heur endP current st nbs).2.count ∧
      (∀ e ∈ (a_star_relax heur endP current st nbs).2.heap,
        e ∈ st.heap ∨ st.count < e.2.1) := by
  intro nbs
  induction nbs with
  | nil =>
    intro st h1 h2 h3
    exact ⟨h1, h2, h3, Nat.le_refl _, fun e he => Or.inl he⟩
  | cons nb rest ih =>
    intro st h1 h2 h3
    unfold a_star_relax
    by_cases hstop : st.flags.stop = true
    · simp only [hstop, if_true]
      exact ⟨h1, h2, h3, Nat.le_refl _, fun e he => Or.inl he⟩
    · simp only [Bool.not_eq_true] at hstop
      simp only [hstop, Bool.false_eq_true, if_false]
      cases hgc : st.g_score current with
      | none => exact ih st h1 h2 h3
      | some gc =>
        dsimp only
        by_cases himp : ltOpt (gc + 1) (st.g_score nb) = true
        · simp only [himp, if_true]
          by_cases hhash : st.open_set_hash nb = true
          · simp only [hhash, if_true]
            exact ih _ h1 h2 h3
          · simp only [Bool.not_eq_true] at hhash
            simp only [hhash, Bool.false_eq_true, if_false]
            have hperm := heappush_perm ltA st.heap
              (gc + 1 + heur nb endP, st.count + 1, nb)
            have hA : IsHeap ltA
                (heappush ltA st.heap (gc + 1 + heur nb endP, st.count + 1, nb)) :=
              heappush_isHeap ltA ltA_irr ltA_trans ltA_neg _ _ h1
            have hB : ∀ e ∈ heappush ltA st.heap
                (gc + 1 + heur nb endP, st.count + 1, nb), e.2.1 ≤ st.count + 1 := by
              intro e he
              rcases List.mem_cons.mp ((hperm.mem_iff).mp he) with he1 | he2
              · rw [he1]
              · exact Nat.le_succ_of_le (h2 e he2)
            have hC : (heappush ltA st.heap
                (gc + 1 + heur nb endP, st.count + 1, nb)).Pairwise
                (fun e1 e2 => e1.2.1 ≠ e2.2.1) := by
              refine (List.Perm.pairwise_iff (fun hxy hq => hxy hq.symm) hperm).mpr ?_
              refine List.pairwise_cons.mpr ⟨?_, h3⟩
              intro y hy
              have := h2 y hy
              intro hq
              have hq2 : st.count + 1 = y.2.1 := hq
              omega
            have hres := ih { st with
              came_from := fun q => if q = nb then some current else st.came_from q,
              g_score := fun q => if q = nb then some (gc + 1) else st.g_score q,
              f_score := fun q =>
                if q = nb then some (gc + 1 + heur nb endP) else st.f_score q,
              count := st.count + 1,
              heap := heappush ltA st.heap (gc + 1 + heur nb endP, st.count + 1, nb),
              open_set_hash := fun q => if q = nb then true else st.open_set_hash q,
              colors := setc st.colors nb GREEN } hA hB hC
            refine ⟨hres.1, hres.2.1, hres.2.2.1,
              Nat.le_trans (Nat.le_succ st.count) hres.2.2.2.1, ?_⟩
            intro e he
            rcases hres.2.2.2.2 e he with he1 | he2
            · rcases List.mem_cons.mp ((hperm.mem_iff).mp he1) with he3 | he4
              · right
                rw [he3]
                exact Nat.lt_succ_self _
              · exact Or.inl he4
            · right
              exact Nat.lt_of_succ_lt he2
        · simp only [Bool.not_eq_true] at himp
          simp only [himp, Bool.false_eq_true, if_false]
          exact ih st h1 h2 h3

theorem a_star_pop_inv (st : AState) (e : Nat × Nat × Pos)
    (rest : List (Nat × Nat × Pos))
    (h : AInv st) (hp : heappop ltA st.heap = some (e, rest)) :
    (∀ e2 ∈ rest, e.1 = e2.1 → e.2.1 < e2.2.1) ∧
    (∀ e2 ∈ rest, e.1 ≤ e2.1) ∧
    IsHeap ltA rest ∧
    (∀ e2 ∈ rest, e2.2.1 ≤ st.count) ∧
    rest.Pairwise (fun e1 e2 => e1.2.1 ≠ e2.2.1) := by
  obtain ⟨hheap, hcount, hpair⟩ := h
  have hmin := heappop_min ltA ltA_irr ltA_neg st.heap e rest hheap hp
  have hperm := hmin.2
  have hpair2 : (e :: rest).Pairwise (fun e1 e2 => e1.2.1 ≠ e2.2.1) :=
    (List.Perm.pairwise_iff (fun hxy hq => hxy hq.symm) hperm).mp hpair
  have hhead := (List.pairwise_cons.mp hpair2).1
  have hmem : ∀ e2 ∈ rest, e2 ∈ st.heap := fun e2 he2 =>
    (hperm.mem_iff).mpr (List.mem_cons_of_mem e he2)
  refine ⟨?_, ?_, ?_, ?_, (List.pairwise_cons.mp hpair2).2⟩
  · intro e2 he2 hf
    have hlt := hmin.1 e2 (hmem e2 he2)
    have hne := hhead e2 he2
    unfold ltA at hlt
    simp only [decide_eq_false_iff_not] at hlt
    omega
  · intro e2 he2
    have hlt := hmin.1 e2 (hmem e2 he2)
    unfold ltA at hlt
    simp only [decide_eq_false_iff_not] at hlt
    omega
  · exact heappop_isHeap ltA ltA_irr ltA_trans ltA_neg st.heap e rest hheap hp
  · intro e2 he2
    exact hcount e2 (hmem e2 he2)

/-- C3: in the a_star stepper the frontier invariant AInv (heap shape under
the Python tuple order, all insertion counters at most the running counter,
counters pairwise distinct) holds at the start of every run and is preserved
by every pop and every neighbor relaxation, the counter never decreases and
every newly inserted entry carries a strictly larger counter; under the
invariant a pop returns an entry whose f-score is minimal, and among frontier
entries of equal f-score the one with the smaller insertion counter — the
earlier-inserted one — is popped first; and an improving relaxation of a
neighbor already in the frontier (open_set_hash) only rewrites the score and
predecessor maps: it pushes nothing, and the heap, counter, hash and colors
are unchanged. -/
theorem c3_tie_break_no_reinsert :
    (∀ (heur : Pos → Pos → Nat) (startP endP : Pos) (colors0 : Pos → Color),
      AInv (a_star_init heur startP endP colors0)) ∧
    (∀ (st : AState) (e : Nat × Nat × Pos) (rest : List (Nat × Nat × Pos)),
      AInv st → heappop ltA st.heap = some (e, rest) →
      (∀ e2 ∈ rest, e.1 = e2.1 → e.2.1 < e2.2.1) ∧
      (∀ e2 ∈ rest, e.1 ≤ e2.1) ∧
      IsHeap ltA rest ∧
      (∀ e2 ∈ rest, e2.2.1 ≤ st.count) ∧
      rest.Pairwise (fun e1 e2 => e1.2.1 ≠ e2.2.1)) ∧
    (∀ (heur : Pos → Pos → Nat) (endP current : Pos) (nbs : List Pos) (st : AState),
      IsHeap ltA st.heap → (∀ e ∈ st.heap, e.2.1 ≤ st.count) →
      st.heap.Pairwise (fun e1 e2 => e1.2.1 ≠ e2.2.1) →
      IsHeap ltA (a_star_relax heur endP current st nbs).2.heap ∧
      (∀ e ∈ (a_star_relax heur endP current st nbs).2.heap,
        e.2.1 ≤ (a_star_relax heur endP current st nbs).2.count) ∧
      (a_star_relax heur endP current st nbs).2.heap.Pairwise
        (fun e1 e2 => e1.2.1 ≠ e2.2.1) ∧
      st.count ≤ (a_star_relax heur endP current st nbs).2.count ∧
      (∀ e ∈ (a_star_relax heur endP current st nbs).2.heap,
        e ∈ st.heap ∨ st.count < e.2.1)) ∧
    (∀ (heur : Pos → Pos → Nat) (endP current : Pos) (st : AState) (nb : Pos)
      (rest : List Pos) (gc : Nat),
      st.flags.stop = false → st.g_score current = some gc →
      ltOpt (gc + 1) (st.g_score nb) = true → st.open_set_hash nb = true →
      a_star_relax heur endP current st (nb :: rest) =
        a_star_relax heur endP current
          { st with
            came_from := fun q => if q = nb then some current else st.came_from q,
            g_score := fun q => if q = nb then some (gc + 1) else st.g_score q,
            f_score := fun q =>
              if q = nb then some (gc + 1 + heur nb endP) else st.f_score q }
          rest) := by
  refine ⟨a_star_init_AInv, a_star_pop_inv, a_star_relax_inv, ?_⟩
  intro heur endP current st nb rest gc hstop hgc himp hhash
  conv_lhs => unfold a_star_relax
  simp only [hstop, Bool.false_eq_true, if_false, hgc, himp, if_true, hhash]

/-- C3 witness: the invariant at a concrete initial state, the tie-break
conclusion for the pop it allows, and a no-reinsert relaxation on a concrete
one-entry frontier. -/
theorem c3_tie_break_no_reinsert_witness :
    AInv (a_star_init manh (0, 0) (3, 1) tieColors) ∧
    (∀ e2 ∈ ([] : List (Nat × Nat × Pos)),
      ((0, 0, ((0 : Nat), (0 : Nat))) : Nat × Nat × Pos).1 = e2.1 →
      ((0, 0, ((0 : Nat), (0 : Nat))) : Nat × Nat × Pos).2.1 < e2.2.1) ∧
    a_star_relax manh (3, 1) (0, 0) c3WitnessState [(0, 1)] =
      a_star_relax manh (3, 1) (0, 0)
        { c3WitnessState with
          came_from := fun q =>
            if q = (0, 1) then some (0, 0) else c3WitnessState.came_from q,
          g_score := fun q =>
            if q = (0, 1) then some (0 + 1) else c3WitnessState.g_score q,
          f_score := fun q =>
            if q = (0, 1) then some (0 + 1 + manh (0, 1) (3, 1))
            else c3WitnessState.f_score q }
        [] := by
  refine ⟨c3_tie_break_no_reinsert.1 manh (0, 0) (3, 1) tieColors, ?_, ?_⟩
  · exact (c3_tie_break_no_reinsert.2.1 (a_star_init manh (0, 0) (3, 1) tieColors)
      (0, 0, (0, 0)) [] (c3_tie_break_no_reinsert.1 manh (0, 0) (3, 1) tieColors) rfl).1
  · exact c3_tie_break_no_reinsert.2.2.2 manh (3, 1) (0, 0) c3WitnessState (0, 1) [] 0
      rfl rfl rfl rfl

